import Mathlib

/-!
Verification development for the cytokit pipeline sources
(`src/python/pipeline/codex/...`).  Python modules are shallowly embedded:
pure functions become Lean functions, the process environment becomes an
explicit `String → Option String` map threaded through the functions that
read or write it, machine integers become `Nat`/`Int` with explicit
wraparound where the code casts, and fallible code returns `Except PyErr`.
External library collaborators (keras/tensorflow inference, skimage, cv2,
scipy) are modelled as explicit function parameters ("hooks"), so every
theorem about in-repo control flow is quantified over their behaviour.
-/

/-- Python exceptions observable from the embedded code. -/
inductive PyErr where
  | valueError (msg : String)
  | keyError (key : String)
  | assertionError (msg : String)
  | unboundLocalError (name : String)
  | typeError (msg : String)
  deriving Repr, DecidableEq

/-- The process environment (`os.environ`): a partial map from variable
names to string values. -/
def PosixEnv : Type := String → Option String

/-- `os.environ[k] = v` : update the environment at one key. -/
def envSet (e : PosixEnv) (k v : String) : PosixEnv :=
  fun k' => if k' = k then some v else e k'

/-- Embedding of `codex.register_environment` (codex/__init__.py:22-26):
for each `(k, v)` pair in the given mapping, in order, set the process
environment entry only when `k` is not already present. -/
def registerEnvironment (e : PosixEnv) (env : List (String × String)) : PosixEnv :=
  env.foldl (fun acc kv => if (acc kv.1).isNone then envSet acc kv.1 kv.2 else acc) e

theorem envSet_same (e : PosixEnv) (k v : String) : envSet e k v k = some v := by
  simp [envSet]

theorem envSet_other (e : PosixEnv) (k v k' : String) (h : k' ≠ k) :
    envSet e k v k' = e k' := by
  simp [envSet, h]

theorem registerEnvironment_nil (e : PosixEnv) : registerEnvironment e [] = e := rfl

theorem registerEnvironment_cons (e : PosixEnv) (kv : String × String)
    (rest : List (String × String)) :
    registerEnvironment e (kv :: rest) =
      registerEnvironment (if (e kv.1).isNone then envSet e kv.1 kv.2 else e) rest := by
  simp only [registerEnvironment, List.foldl_cons]

theorem registerEnvironment_preserves (env : List (String × String)) :
    ∀ (e : PosixEnv) (k old : String), e k = some old →
      registerEnvironment e env k = some old := by
  induction env with
  | nil => intro e k old h; simpa [registerEnvironment_nil] using h
  | cons kv rest ih =>
    intro e k old h
    rw [registerEnvironment_cons]
    by_cases habs : (e kv.1).isNone
    · rw [if_pos habs]
      apply ih
      by_cases hk : k = kv.1
      · subst hk; rw [h] at habs; simp at habs
      · rw [envSet_other e kv.1 kv.2 k hk]; exact h
    · rw [if_neg habs]; exact ih e k old h

theorem registerEnvironment_sets (env : List (String × String)) :
    ∀ (e : PosixEnv) (k v : String), e k = none → env.lookup k = some v →
      registerEnvironment e env k = some v := by
  induction env with
  | nil => intro e k v _ hl; simp [List.lookup] at hl
  | cons kv rest ih =>
    intro e k v habs hl
    rw [registerEnvironment_cons]
    by_cases hk : k = kv.1
    · have hbeq : (k == kv.1) = true := beq_iff_eq.mpr hk
      have hv : kv.2 = v := by simpa [List.lookup, hbeq] using hl
      have habs1 : (e kv.1).isNone := by rw [← hk, habs]; rfl
      rw [if_pos habs1]
      apply registerEnvironment_preserves
      rw [← hk, envSet_same, hv]
    · have hbeq : (k == kv.1) = false := beq_eq_false_iff_ne.mpr hk
      have hl : rest.lookup k = some v := by simpa [List.lookup, hbeq] using hl
      by_cases habs1 : (e kv.1).isNone
      · rw [if_pos habs1]
        apply ih _ k v _ hl
        rw [envSet_other e kv.1 kv.2 k hk]; exact habs
      · rw [if_neg habs1]; exact ih e k v habs hl

theorem registerEnvironment_frame (env : List (String × String)) :
    ∀ (e : PosixEnv) (k : String), k ∉ env.map Prod.fst →
      registerEnvironment e env k = e k := by
  induction env with
  | nil => intro e k _; rfl
  | cons kv rest ih =>
    intro e k hk
    simp only [List.map_cons, List.mem_cons] at hk
    push_neg at hk
    rw [registerEnvironment_cons]
    by_cases habs : (e kv.1).isNone
    · rw [if_pos habs, ih _ k hk.2, envSet_other e kv.1 kv.2 k hk.1]
    · rw [if_neg habs]; exact ih e k hk.2

/-- C7: For every mapping `env` passed to `register_environment` and every
name `k`: an entry present before the call keeps its value; an absent entry
gets the mapping's value for `k`; and entries whose names are not keys of
the mapping are untouched. -/
theorem c7_register_environment_set_if_absent
    (e : PosixEnv) (env : List (String × String)) (k : String) :
    (∀ old, e k = some old → registerEnvironment e env k = some old) ∧
    (e k = none → ∀ v, env.lookup k = some v → registerEnvironment e env k = some v) ∧
    (k ∉ env.map Prod.fst → registerEnvironment e env k = e k) :=
  ⟨fun old h => registerEnvironment_preserves env e k old h,
   fun habs v hl => registerEnvironment_sets env e k v habs hl,
   fun hk => registerEnvironment_frame env e k hk⟩

/-- Witness for C7, matching the spec's example: with `X=old` present,
registering `[(X, new), (Y, new)]` leaves `X=old`, sets `Y=new`, and leaves
an unrelated name `Z` untouched. -/
theorem c7_register_environment_set_if_absent_witness :
    ((fun s => if s = "X" then some "old" else none) : PosixEnv) "X" = some "old" ∧
    registerEnvironment (fun s => if s = "X" then some "old" else none)
      [("X", "new"), ("Y", "new")] "X" = some "old" ∧
    registerEnvironment (fun s => if s = "X" then some "old" else none)
      [("X", "new"), ("Y", "new")] "Y" = some "new" ∧
    registerEnvironment (fun s => if s = "X" then some "old" else none)
      [("X", "new"), ("Y", "new")] "Z" = none := by
  refine ⟨rfl, ?_, ?_, ?_⟩
  · exact (c7_register_environment_set_if_absent
      (fun s => if s = "X" then some "old" else none) [("X", "new"), ("Y", "new")] "X").1
      "old" rfl
  · exact (c7_register_environment_set_if_absent
      (fun s => if s = "X" then some "old" else none) [("X", "new"), ("Y", "new")] "Y").2.1
      rfl "new" (by decide)
  · exact ((c7_register_environment_set_if_absent
      (fun s => if s = "X" then some "old" else none) [("X", "new"), ("Y", "new")] "Z").2.2
      (by decide)).trans rfl

/-! Decimal rendering and parsing of machine integers.  `natChars`/`intChars`
model Python's `str(...)` on integers (used by `str(dict)` in
`set_raw_index_symlinks`), and `parseNatAux`/`parseInt` model the literal
parsing performed by `eval` in `get_raw_index_symlinks` and by `int(...)`
on strings in the CLI argument helpers. -/

/-- Decimal digit character for a digit value below ten. -/
def digitChar (d : ℕ) : Char := Char.ofNat (48 + d)

/-- Decimal digits of a natural number, most significant first
(fuel-based so that it reduces definitionally; fuel `n + 1` suffices). -/
def natCharsAux : ℕ → ℕ → List Char
  | 0, _ => []
  | f + 1, n => if n < 10 then [digitChar n] else natCharsAux f (n / 10) ++ [digitChar (n % 10)]

/-- Decimal rendering of a natural number, as Python's `str`. -/
def natChars (n : ℕ) : List Char := natCharsAux (n + 1) n

/-- Decimal rendering of an integer, as Python's `str`. -/
def intChars (z : ℤ) : List Char :=
  if z < 0 then '-' :: natChars z.natAbs else natChars z.toNat

/-- Consume leading decimal digits, accumulating their value. -/
def parseNatAux : List Char → ℕ → ℕ × List Char
  | [], acc => (acc, [])
  | c :: cs, acc => if c.isDigit then parseNatAux cs (acc * 10 + (c.toNat - 48)) else (acc, c :: cs)

/-- Parse a natural number (at least one digit required). -/
def parseNat : List Char → Option (ℕ × List Char)
  | [] => none
  | c :: cs => if c.isDigit then some (parseNatAux (c :: cs) 0) else none

/-- Parse an integer: an optional minus sign followed by digits. -/
def parseInt : List Char → Option (ℤ × List Char)
  | [] => none
  | c :: cs =>
    if c = '-' then (parseNat cs).map (fun p => (-(p.1 : ℤ), p.2))
    else (parseNat (c :: cs)).map (fun p => ((p.1 : ℤ), p.2))

/-- True when the list does not begin with a decimal digit (the parser
will therefore stop in front of it). -/
def noLeadDigit : List Char → Prop
  | [] => True
  | c :: _ => ¬c.isDigit

theorem digitChar_isDigit {d : ℕ} (h : d < 10) : (digitChar d).isDigit := by
  interval_cases d <;> decide

theorem digitChar_val {d : ℕ} (h : d < 10) : (digitChar d).toNat - 48 = d := by
  interval_cases d <;> decide

theorem digitChar_ne_minus {d : ℕ} (h : d < 10) : digitChar d ≠ '-' := by
  interval_cases d <;> decide

theorem natCharsAux_all_digits :
    ∀ (f n : ℕ), n < f → ∀ c ∈ natCharsAux f n, c.isDigit := by
  intro f
  induction f with
  | zero => intro n h; omega
  | succ f ih =>
    intro n _ c hc
    rw [natCharsAux] at hc
    by_cases h10 : n < 10
    · rw [if_pos h10] at hc
      simp only [List.mem_singleton] at hc
      exact hc ▸ digitChar_isDigit h10
    · rw [if_neg h10] at hc
      rcases List.mem_append.mp hc with h' | h'
      · exact ih (n / 10) (by omega) c h'
      · simp only [List.mem_singleton] at h'
        exact h' ▸ digitChar_isDigit (Nat.mod_lt n (by omega))

theorem natCharsAux_ne_nil :
    ∀ (f n : ℕ), n < f → natCharsAux f n ≠ [] := by
  intro f
  induction f with
  | zero => intro n h; omega
  | succ f _ =>
    intro n _
    rw [natCharsAux]
    by_cases h10 : n < 10
    · simp [h10]
    · simp [h10]

theorem parseNatAux_stop (l : List Char) (acc : ℕ) (h : noLeadDigit l) :
    parseNatAux l acc = (acc, l) := by
  cases l with
  | nil => rfl
  | cons c cs =>
    rw [parseNatAux, if_neg]
    simpa [noLeadDigit] using h

theorem parseNatAux_append :
    ∀ (f n : ℕ), n < f → ∀ (acc : ℕ) (rest : List Char),
      parseNatAux (natCharsAux f n ++ rest) acc =
        parseNatAux rest (acc * 10 ^ (natCharsAux f n).length + n) := by
  intro f
  induction f with
  | zero => intro n h; omega
  | succ f ih =>
    intro n hn acc rest
    rw [natCharsAux]
    by_cases h10 : n < 10
    · rw [if_pos h10]
      simp only [List.singleton_append, List.length_singleton]
      rw [parseNatAux, if_pos (digitChar_isDigit h10), digitChar_val h10]
      ring_nf
    · rw [if_neg h10]
      have hdiv : n / 10 < f := by omega
      rw [List.append_assoc, List.singleton_append, ih (n / 10) hdiv acc _]
      rw [parseNatAux, if_pos (digitChar_isDigit (Nat.mod_lt n (by omega)))]
      rw [digitChar_val (Nat.mod_lt n (by omega))]
      congr 1
      · simp only [List.length_append, List.length_singleton]
        have : n / 10 * 10 + n % 10 = n := by omega
        ring_nf
        omega

theorem parseNat_natChars (n : ℕ) (rest : List Char) (h : noLeadDigit rest) :
    parseNat (natChars n ++ rest) = some (n, rest) := by
  have hne := natCharsAux_ne_nil (n + 1) n (by omega)
  have hdig := natCharsAux_all_digits (n + 1) n (by omega)
  rw [natChars]
  cases hcons : natCharsAux (n + 1) n with
  | nil => exact absurd hcons hne
  | cons c cs =>
    have hc : c.isDigit := hdig c (by rw [hcons]; exact List.mem_cons_self c cs)
    rw [List.cons_append, parseNat, if_pos hc, ← List.cons_append, ← hcons]
    have := parseNatAux_append (n + 1) n (by omega) 0 rest
    rw [this, Nat.zero_mul, Nat.zero_add, parseNatAux_stop rest n h]

theorem parseInt_intChars (z : ℤ) (rest : List Char) (h : noLeadDigit rest) :
    parseInt (intChars z ++ rest) = some (z, rest) := by
  rw [intChars]
  by_cases hz : z < 0
  · rw [if_pos hz, List.cons_append, parseInt, if_pos rfl, parseNat_natChars _ _ h]
    simp only [Option.map_some']
    congr 1
    have : (z.natAbs : ℤ) = -z := by
      omega
    rw [this]; ring_nf
  · rw [if_neg hz]
    have hne := natCharsAux_ne_nil (z.toNat + 1) z.toNat (by omega)
    have hdig := natCharsAux_all_digits (z.toNat + 1) z.toNat (by omega)
    rw [natChars]
    cases hcons : natCharsAux (z.toNat + 1) z.toNat with
    | nil => exact absurd hcons hne
    | cons c cs =>
      have hc : c.isDigit := hdig c (by rw [hcons]; exact List.mem_cons_self c cs)
      have hcm : ¬(c = '-') := by
        intro he; rw [he] at hc; exact absurd hc (by decide)
      rw [List.cons_append, parseInt, if_neg hcm, ← List.cons_append, ← hcons, ← natChars,
        parseNat_natChars _ _ h]
      simp only [Option.map_some']
      congr 1
      rw [Int.toNat_of_nonneg (by omega)]

/-! CLI argument resolution (codex/cli/__init__.py:41-59). -/

/-- A Python scalar CLI value: an integer or a string. -/
inductive PyScalar where
  | int (z : ℤ)
  | str (s : String)
  deriving Repr, DecidableEq

/-- Python `int(s)` on a string: an optional minus sign followed by digits,
consuming the whole string; anything else raises ValueError. -/
def pyIntOfString (s : String) : Except PyErr ℤ :=
  match parseInt s.data with
  | some (z, []) => .ok z
  | _ => .error (.valueError "invalid literal for int")

/-- Python `int(v)` on a scalar CLI value. -/
def pyInt : PyScalar → Except PyErr ℤ
  | .int z => .ok z
  | .str s => pyIntOfString s

/-- Iteration of Python `range` with a positive step (fuel-bounded; fuel
`(stop - start).toNat` suffices since each step advances by at least one). -/
def rangeAscFuel : ℕ → ℤ → ℤ → ℤ → List ℤ
  | 0, _, _, _ => []
  | f + 1, start, stop, step =>
    if start < stop then start :: rangeAscFuel f (start + step) stop step else []

/-- Iteration of Python `range` with a negative step. -/
def rangeDescFuel : ℕ → ℤ → ℤ → ℤ → List ℤ
  | 0, _, _, _ => []
  | f + 1, start, stop, step =>
    if stop < start then start :: rangeDescFuel f (start + step) stop step else []

/-- Python `list(range(start, stop, step))`. -/
def pyRange (start stop step : ℤ) : Except PyErr (List ℤ) :=
  if step = 0 then .error (.valueError "range arg 3 must not be zero")
  else if 0 < step then .ok (rangeAscFuel (stop - start).toNat start stop step)
  else .ok (rangeDescFuel (start - stop).toNat start stop step)

/-- A Python value passed as a CLI argument to `resolve_int_list_arg`. -/
inductive PyArg where
  | none
  | int (z : ℤ)
  | str (s : String)
  | tup (l : List PyScalar)
  | list (l : List PyScalar)
  deriving Repr, DecidableEq

/-- Embedding of `resolve_int_list_arg` (codex/cli/__init__.py:41-59):
absent argument stays absent; a single integer or numeric string becomes a
one-element list; a 2- or 3-tuple is expanded as an inclusive range
`range(vals[0], vals[1] + 1, 1 or vals[2])`; a list has each element
coerced by `int`; a tuple of any other length raises ValueError. -/
def resolveIntListArg : PyArg → Except PyErr (Option (List ℤ))
  | .none => .ok Option.none
  | .int z => .ok (some [z])
  | .str s => (pyIntOfString s).map (fun z => some [z])
  | .tup l =>
    if l.length = 2 ∨ l.length = 3 then do
      let vals ← l.mapM pyInt
      let r ← pyRange (vals.getD 0 0) (vals.getD 1 0 + 1)
        (if vals.length < 3 then 1 else vals.getD 2 0)
      pure (some r)
    else .error (.valueError "tuple must contain 2 or 3 items indicating a range")
  | .list l => (l.mapM pyInt).map some

instance {ε α : Type} [DecidableEq ε] [DecidableEq α] : DecidableEq (Except ε α) :=
  fun x y =>
    match x, y with
    | .ok a, .ok b =>
      if h : a = b then .isTrue (by rw [h]) else .isFalse (fun he => h (Except.ok.inj he))
    | .error a, .error b =>
      if h : a = b then .isTrue (by rw [h]) else .isFalse (fun he => h (Except.error.inj he))
    | .ok _, .error _ => .isFalse (fun he => Except.noConfusion he)
    | .error _, .ok _ => .isFalse (fun he => Except.noConfusion he)

theorem rangeAscFuel_one :
    ∀ (n : ℕ) (a stop : ℤ), (stop - a).toNat = n →
      rangeAscFuel n a stop 1 = List.map (fun k : ℕ => a + (k : ℤ)) (List.range n) := by
  intro n
  induction n with
  | zero => intro a stop _; rfl
  | succ n ih =>
    intro a stop hn
    rw [rangeAscFuel, if_pos (by omega), List.range_succ_eq_map, List.map_cons, List.map_map]
    have h1 : (stop - (a + 1)).toNat = n := by omega
    rw [ih (a + 1) stop h1]
    refine congrArg₂ _ (by simp) ?_
    apply List.map_congr_left
    intro k _
    simp only [Function.comp_apply, Nat.succ_eq_add_one]
    push_cast
    ring

theorem rangeAscFuel_mem :
    ∀ (f : ℕ) (a stop s : ℤ), 0 < s → (stop - a).toNat ≤ f →
      ∀ x : ℤ, x ∈ rangeAscFuel f a stop s ↔ (∃ k : ℕ, x = a + k * s) ∧ x < stop := by
  intro f
  induction f with
  | zero =>
    intro a stop s hs hf x
    rw [rangeAscFuel]
    simp only [List.not_mem_nil, false_iff]
    rintro ⟨⟨k, rfl⟩, hlt⟩
    have : (0 : ℤ) ≤ k * s := mul_nonneg (by positivity) (le_of_lt hs)
    omega
  | succ f ih =>
    intro a stop s hs hf x
    rw [rangeAscFuel]
    by_cases hlt : a < stop
    · rw [if_pos hlt]
      have hf1 : (stop - (a + s)).toNat ≤ f := by omega
      rw [List.mem_cons, ih (a + s) stop s hs hf1 x]
      constructor
      · rintro (rfl | ⟨⟨k, rfl⟩, hx⟩)
        · exact ⟨⟨0, by ring⟩, hlt⟩
        · exact ⟨⟨k + 1, by push_cast; ring⟩, hx⟩
      · rintro ⟨⟨k, rfl⟩, hx⟩
        cases k with
        | zero => left; push_cast; ring
        | succ k => right; exact ⟨⟨k, by push_cast; ring⟩, hx⟩
    · rw [if_neg hlt]
      simp only [List.not_mem_nil, false_iff]
      rintro ⟨⟨k, rfl⟩, hx⟩
      have : (0 : ℤ) ≤ k * s := mul_nonneg (by positivity) (le_of_lt hs)
      omega

theorem resolveIntListArg_pair (a b : ℤ) :
    resolveIntListArg (.tup [.int a, .int b]) =
      .ok (some (rangeAscFuel (b + 1 - a).toNat a (b + 1) 1)) := rfl

theorem resolveIntListArg_triple (a b s : ℤ) (hs : ¬s = 0) (hpos : 0 < s) :
    resolveIntListArg (.tup [.int a, .int b, .int s]) =
      .ok (some (rangeAscFuel (b + 1 - a).toNat a (b + 1) s)) := by
  show (do
    let r ← pyRange a (b + 1) s
    pure (some r) : Except PyErr (Option (List ℤ))) = _
  rw [pyRange, if_neg hs, if_pos hpos]
  rfl

/-- C10: behaviour of `resolve_int_list_arg` over each input shape: absent
stays absent; a single integer or numeric string becomes a one-element
list; a 2-tuple expands to the inclusive unit-step range; a 3-tuple with
positive step expands to the inclusive stepped range; a list is coerced
elementwise; a tuple of any other length fails with ValueError. -/
theorem c10_resolve_int_list_arg :
    resolveIntListArg .none = .ok Option.none ∧
    (∀ z : ℤ, resolveIntListArg (.int z) = .ok (some [z])) ∧
    (∀ (s : String) (z : ℤ), pyIntOfString s = .ok z →
      resolveIntListArg (.str s) = .ok (some [z])) ∧
    (∀ a b : ℤ, resolveIntListArg (.tup [.int a, .int b]) =
      .ok (some (List.map (fun k : ℕ => a + (k : ℤ)) (List.range (b + 1 - a).toNat)))) ∧
    (∀ a b s : ℤ, 0 < s → ∃ l : List ℤ,
      resolveIntListArg (.tup [.int a, .int b, .int s]) = .ok (some l) ∧
      ∀ x : ℤ, x ∈ l ↔ (∃ k : ℕ, x = a + k * s) ∧ x ≤ b) ∧
    (∀ zs : List ℤ, resolveIntListArg (.list (zs.map .int)) = .ok (some zs)) ∧
    (∀ l : List PyScalar, l.length ≠ 2 → l.length ≠ 3 →
      resolveIntListArg (.tup l) =
        .error (.valueError "tuple must contain 2 or 3 items indicating a range")) := by
  refine ⟨rfl, fun z => rfl, ?_, ?_, ?_, ?_, ?_⟩
  · intro s z h
    show (pyIntOfString s).map (fun z => some [z]) = _
    rw [h]
    rfl
  · intro a b
    rw [resolveIntListArg_pair a b, rangeAscFuel_one (b + 1 - a).toNat a (b + 1) rfl]
  · intro a b s hs
    refine ⟨rangeAscFuel (b + 1 - a).toNat a (b + 1) s,
      resolveIntListArg_triple a b s (by omega) hs, ?_⟩
    intro x
    rw [rangeAscFuel_mem (b + 1 - a).toNat a (b + 1) s hs (le_refl _) x]
    constructor
    · rintro ⟨hk, hx⟩; exact ⟨hk, by omega⟩
    · rintro ⟨hk, hx⟩; exact ⟨hk, by omega⟩
  · intro zs
    have hm : ∀ zs : List ℤ, (zs.map PyScalar.int).mapM pyInt = .ok zs := by
      intro zs
      induction zs with
      | nil => rfl
      | cons z rest ih =>
        rw [List.map_cons, List.mapM_cons, ih]
        rfl
    show ((zs.map PyScalar.int).mapM pyInt).map some = .ok (some zs)
    rw [hm zs]
    rfl
  · intro l h2 h3
    rw [resolveIntListArg, if_neg (by omega)]

/-- Witness for C10 at the spec's concrete examples: `(2, 5)` expands to
`[2, 3, 4, 5]`, `(2, 8, 2)` expands to `[2, 4, 6, 8]`, a numeric string
becomes a one-element list, and the 4-tuple fails. -/
theorem c10_resolve_int_list_arg_witness :
    resolveIntListArg (.tup [.int 2, .int 5]) = .ok (some [2, 3, 4, 5]) ∧
    resolveIntListArg (.tup [.int 2, .int 8, .int 2]) = .ok (some [2, 4, 6, 8]) ∧
    resolveIntListArg (.str "7") = .ok (some [7]) ∧
    resolveIntListArg (.tup [.int 1, .int 2, .int 3, .int 4]) =
      .error (.valueError "tuple must contain 2 or 3 items indicating a range") := by
  refine ⟨?_, ?_, ?_, ?_⟩
  · rw [c10_resolve_int_list_arg.2.2.2.1 2 5]
    decide
  · obtain ⟨l, hl, hmem⟩ := c10_resolve_int_list_arg.2.2.2.2.1 2 8 2 (by omega)
    rw [hl]
    have h0 : l = rangeAscFuel 7 2 9 2 := by
      have := hl.symm.trans (resolveIntListArg_triple 2 8 2 (by omega) (by omega))
      exact (Option.some.inj (Except.ok.inj this))
    rw [h0]
    decide
  · exact c10_resolve_int_list_arg.2.2.1 "7" 7 rfl
  · exact c10_resolve_int_list_arg.2.2.2.2.2.2 [.int 1, .int 2, .int 3, .int 4]
      (by decide) (by decide)

/-! Raw-index symlink registry (codex/__init__.py:71-83).  The environment
variable stores the Python literal rendering `str(links)` of a nested dict
(outer keys: dimension-name strings, inner keys/values: ints);
`get_raw_index_symlinks` recovers it with `eval` and `int(...)`.  The
encoder below produces exactly Python's `str` for such a dict (for keys
whose characters `repr` leaves unescaped), and the parser models the
grammar `eval` accepts for these literals. -/

/-- Left curly brace character. -/
def braceL : Char := Char.ofNat 123

/-- Right curly brace character. -/
def braceR : Char := Char.ofNat 125

/-- Single-quote character. -/
def quoteC : Char := Char.ofNat 39

/-- `str` of one inner `int: int` dict item. -/
def encodeInnerEntry (kv : ℤ × ℤ) : List Char :=
  intChars kv.1 ++ ':' :: ' ' :: intChars kv.2

/-- `str` of the remaining inner items, each preceded by a comma-space
separator (Python's `", ".join`). -/
def encodeInnerTail : List (ℤ × ℤ) → List Char
  | [] => []
  | kv :: rest => ',' :: ' ' :: encodeInnerEntry kv ++ encodeInnerTail rest

/-- `str` of an inner `int → int` dict. -/
def encodeInner (m : List (ℤ × ℤ)) : List Char :=
  braceL :: (match m with
    | [] => []
    | kv :: rest => encodeInnerEntry kv ++ encodeInnerTail rest) ++ [braceR]

/-- `str` of one outer `'name': innerdict` item. -/
def encodeOuterEntry (km : String × List (ℤ × ℤ)) : List Char :=
  quoteC :: km.1.data ++ quoteC :: ':' :: ' ' :: encodeInner km.2

/-- `str` of the remaining outer items, each preceded by comma-space. -/
def encodeOuterTail : List (String × List (ℤ × ℤ)) → List Char
  | [] => []
  | km :: rest => ',' :: ' ' :: encodeOuterEntry km ++ encodeOuterTail rest

/-- `str` of the whole nested dict (`str({}) = "\x7b\x7d"` for the empty
mapping, which is also what `str(links or '\x7b\x7d')` stores). -/
def encodeOuter (M : List (String × List (ℤ × ℤ))) : List Char :=
  braceL :: (match M with
    | [] => []
    | km :: rest => encodeOuterEntry km ++ encodeOuterTail rest) ++ [braceR]

/-- Consume one expected character. -/
def expectChar (c : Char) : List Char → Option (List Char)
  | [] => none
  | x :: xs => if x = c then some xs else none

/-- Parse the characters of a quoted string key up to the closing quote. -/
def parseKeyChars : List Char → Option (List Char × List Char)
  | [] => none
  | c :: cs =>
    if c = quoteC then some ([], cs)
    else (parseKeyChars cs).map (fun p => (c :: p.1, p.2))

/-- Parse one inner `int: int` item. -/
def parseInnerEntry (l : List Char) : Option ((ℤ × ℤ) × List Char) := do
  let (k, l1) ← parseInt l
  let l2 ← expectChar ':' l1
  let l3 ← expectChar ' ' l2
  let (v, l4) ← parseInt l3
  pure ((k, v), l4)

/-- Parse the rest of an inner dict after one item: a closing brace, or a
comma-space separator followed by another item. -/
def parseInnerTail : ℕ → List Char → Option (List (ℤ × ℤ) × List Char)
  | _, [] => none
  | f, c :: cs =>
    if c = braceR then some ([], cs)
    else if c = ',' then
      match f with
      | 0 => none
      | f' + 1 => do
        let cs' ← expectChar ' ' cs
        let (kv, l') ← parseInnerEntry cs'
        let (rest, l'') ← parseInnerTail f' l'
        pure (kv :: rest, l'')
    else none

/-- Parse an inner dict literal. -/
def parseInner (f : ℕ) (l : List Char) : Option (List (ℤ × ℤ) × List Char) := do
  let l1 ← expectChar braceL l
  match l1 with
  | [] => none
  | c :: cs =>
    if c = braceR then some ([], cs)
    else do
      let (kv, l2) ← parseInnerEntry (c :: cs)
      let (rest, l3) ← parseInnerTail f l2
      pure (kv :: rest, l3)

/-- Parse one outer `'name': innerdict` item. -/
def parseOuterEntry (f : ℕ) (l : List Char) : Option ((String × List (ℤ × ℤ)) × List Char) := do
  let l1 ← expectChar quoteC l
  let (ks, l2) ← parseKeyChars l1
  let l3 ← expectChar ':' l2
  let l4 ← expectChar ' ' l3
  let (m, l5) ← parseInner f l4
  pure ((String.mk ks, m), l5)

/-- Parse the rest of the outer dict after one item. -/
def parseOuterTail : ℕ → List Char → Option (List (String × List (ℤ × ℤ)) × List Char)
  | _, [] => none
  | f, c :: cs =>
    if c = braceR then some ([], cs)
    else if c = ',' then
      match f with
      | 0 => none
      | f' + 1 => do
        let cs' ← expectChar ' ' cs
        let (km, l') ← parseOuterEntry f' cs'
        let (rest, l'') ← parseOuterTail f' l'
        pure (km :: rest, l'')
    else none

/-- Parse the outer dict literal. -/
def parseOuter (f : ℕ) (l : List Char) : Option (List (String × List (ℤ × ℤ)) × List Char) := do
  let l1 ← expectChar braceL l
  match l1 with
  | [] => none
  | c :: cs =>
    if c = braceR then some ([], cs)
    else do
      let (km, l2) ← parseOuterEntry f (c :: cs)
      let (rest, l3) ← parseOuterTail f l2
      pure (km :: rest, l3)

/-- Name of the raw-index symlink environment variable. -/
def ENV_RAW_INDEX_SYMLINKS : String := "CODEX_RAW_INDEX_SYMLINKS"

/-- Argument accepted by `set_raw_index_symlinks`: an already-encoded
string, or the nested mapping itself. -/
inductive SymArg where
  | str (s : String)
  | map (m : List (String × List (ℤ × ℤ)))

/-- Embedding of `set_raw_index_symlinks` (codex/__init__.py:82-83): store
the value as-is when it is a string, else store `str(links or '\x7b\x7d')`
(the literal rendering; the empty mapping is falsy and stores exactly the
two-character empty-dict text either way). -/
def setRawIndexSymlinks (e : PosixEnv) (links : SymArg) : PosixEnv :=
  envSet e ENV_RAW_INDEX_SYMLINKS
    (match links with
      | .str s => s
      | .map m => String.mk (encodeOuter m))

/-- Python `int(...)` applied to a value that is already an int. -/
def pyIntId (z : ℤ) : ℤ := z

/-- Body of `get_raw_index_symlinks` applied to the looked-up variable
value: an unset or empty (falsy) value yields the empty mapping; otherwise
the stored literal is parsed (`eval`) and each inner key/value passes
through `int(...)`; a malformed literal fails. -/
def getRawIndexSymlinksOfVal : Option String → Except PyErr (List (String × List (ℤ × ℤ)))
  | none => .ok []
  | some s =>
    if s.data = [] then .ok []
    else
      match parseOuter s.data.length s.data with
      | some (M, []) =>
        .ok (M.map (fun km => (km.1, km.2.map (fun sd => (pyIntId sd.1, pyIntId sd.2)))))
      | _ => .error (.valueError "malformed symlink mapping literal")

/-- Embedding of `get_raw_index_symlinks` (codex/__init__.py:71-79). -/
def getRawIndexSymlinks (e : PosixEnv) : Except PyErr (List (String × List (ℤ × ℤ))) :=
  getRawIndexSymlinksOfVal (e ENV_RAW_INDEX_SYMLINKS)

theorem intChars_cons (z : ℤ) :
    ∃ c cs, intChars z = c :: cs ∧ (c = '-' ∨ c.isDigit) := by
  rw [intChars]
  by_cases hz : z < 0
  · exact ⟨'-', natChars z.natAbs, by rw [if_pos hz], Or.inl rfl⟩
  · rw [if_neg hz, natChars]
    have hne := natCharsAux_ne_nil (z.toNat + 1) z.toNat (by omega)
    have hdig := natCharsAux_all_digits (z.toNat + 1) z.toNat (by omega)
    cases hcons : natCharsAux (z.toNat + 1) z.toNat with
    | nil => exact absurd hcons hne
    | cons c cs =>
      exact ⟨c, cs, rfl, Or.inr (hdig c (by rw [hcons]; exact List.mem_cons_self c cs))⟩

theorem parseKeyChars_round :
    ∀ (ks rest : List Char), quoteC ∉ ks →
      parseKeyChars (ks ++ quoteC :: rest) = some (ks, rest) := by
  intro ks
  induction ks with
  | nil =>
    intro rest _
    rw [List.nil_append, parseKeyChars, if_pos rfl]
  | cons c ks ih =>
    intro rest hq
    simp only [List.mem_cons] at hq
    push_neg at hq
    rw [List.cons_append, parseKeyChars, if_neg (fun h => hq.1 h.symm),
      ih rest hq.2]
    rfl

theorem expectChar_eq (c x : Char) (xs : List Char) :
    expectChar c (x :: xs) = if x = c then some xs else none := rfl

theorem expectChar_same (c : Char) (xs : List Char) : expectChar c (c :: xs) = some xs := by
  rw [expectChar_eq, if_pos rfl]

theorem parseInnerEntry_round (kv : ℤ × ℤ) (rest : List Char) (h : noLeadDigit rest) :
    parseInnerEntry (encodeInnerEntry kv ++ rest) = some (kv, rest) := by
  have h1 : parseInt (encodeInnerEntry kv ++ rest)
      = some (kv.1, ':' :: ' ' :: (intChars kv.2 ++ rest)) := by
    rw [encodeInnerEntry, List.append_assoc, List.cons_append, List.cons_append]
    exact parseInt_intChars kv.1 _ (show ¬(':'.isDigit) by decide)
  rw [parseInnerEntry, h1]
  simp only [Option.bind_eq_bind, Option.some_bind]
  rw [expectChar_same]
  simp only [Option.some_bind]
  rw [expectChar_same]
  simp only [Option.some_bind]
  rw [parseInt_intChars kv.2 rest h]
  rfl

theorem noLeadDigit_encodeInnerTail (m : List (ℤ × ℤ)) (suffix : List Char) :
    noLeadDigit (encodeInnerTail m ++ braceR :: suffix) := by
  cases m with
  | nil => exact (show ¬braceR.isDigit by decide)
  | cons kv rest => exact (show ¬(','.isDigit) by decide)

theorem parseInnerTail_comma (f : ℕ) (cs : List Char) :
    parseInnerTail (f + 1) (',' :: cs) =
      (do
        let cs' ← expectChar ' ' cs
        let (kv, l') ← parseInnerEntry cs'
        let (rest, l'') ← parseInnerTail f l'
        pure (kv :: rest, l'')) := rfl

theorem parseInnerTail_round :
    ∀ (m : List (ℤ × ℤ)) (f : ℕ), m.length ≤ f → ∀ suffix : List Char,
      parseInnerTail f (encodeInnerTail m ++ braceR :: suffix) = some (m, suffix) := by
  intro m
  induction m with
  | nil =>
    intro f _ suffix
    cases f <;> rfl
  | cons kv m ih =>
    intro f hf suffix
    cases f with
    | zero => simp at hf
    | succ f =>
      have hnorm : encodeInnerTail (kv :: m) ++ braceR :: suffix =
          ',' :: ' ' :: (encodeInnerEntry kv ++ (encodeInnerTail m ++ braceR :: suffix)) := by
        rw [encodeInnerTail]
        simp [List.append_assoc]
      rw [hnorm, parseInnerTail_comma, expectChar_same]
      simp only [Option.bind_eq_bind, Option.some_bind]
      rw [parseInnerEntry_round kv _ (noLeadDigit_encodeInnerTail m suffix)]
      simp only [Option.some_bind]
      rw [ih f (by simpa using hf) suffix]
      rfl

theorem parseInner_cons (f : ℕ) (c : Char) (cs : List Char) :
    parseInner f (braceL :: c :: cs) =
      (if c = braceR then some ([], cs)
       else do
        let (kv, l2) ← parseInnerEntry (c :: cs)
        let (rest, l3) ← parseInnerTail f l2
        pure (kv :: rest, l3)) := rfl

theorem parseInner_round :
    ∀ (m : List (ℤ × ℤ)) (f : ℕ), m.length ≤ f → ∀ suffix : List Char,
      parseInner f (encodeInner m ++ suffix) = some (m, suffix) := by
  intro m f hf suffix
  cases m with
  | nil =>
    rw [show encodeInner [] ++ suffix = braceL :: braceR :: suffix from rfl,
      parseInner_cons, if_pos rfl]
  | cons kv m =>
    have hshape : encodeInner (kv :: m) ++ suffix =
        braceL :: (encodeInnerEntry kv ++ (encodeInnerTail m ++ braceR :: suffix)) := by
      rw [encodeInner]
      simp [List.append_assoc]
    rw [hshape]
    obtain ⟨c, cs, hcons, hc⟩ := intChars_cons kv.1
    have hhead : encodeInnerEntry kv ++ (encodeInnerTail m ++ braceR :: suffix)
        = c :: (cs ++ (':' :: (' ' :: (intChars kv.2 ++
            (encodeInnerTail m ++ braceR :: suffix))))) := by
      rw [encodeInnerEntry, hcons]
      simp [List.append_assoc]
    have hcne : ¬(c = braceR) := by
      rcases hc with h | h
      · rw [h]; decide
      · intro he; rw [he] at h; exact absurd h (by decide)
    rw [hhead, parseInner_cons, if_neg hcne, ← hhead]
    rw [parseInnerEntry_round kv _ (noLeadDigit_encodeInnerTail m suffix)]
    simp only [Option.bind_eq_bind, Option.some_bind]
    rw [parseInnerTail_round m f (by simp only [List.length_cons] at hf; omega) suffix]
    rfl

theorem parseOuterEntry_round (k : String) (m : List (ℤ × ℤ)) (f : ℕ) (rest : List Char)
    (hq : quoteC ∉ k.data) (hf : m.length ≤ f) :
    parseOuterEntry f (encodeOuterEntry (k, m) ++ rest) = some ((k, m), rest) := by
  have hnorm : encodeOuterEntry (k, m) ++ rest =
      quoteC :: (k.data ++ (quoteC :: (':' :: (' ' :: (encodeInner m ++ rest))))) := by
    rw [encodeOuterEntry]
    simp [List.append_assoc]
  rw [hnorm, parseOuterEntry, expectChar_same]
  simp only [Option.bind_eq_bind, Option.some_bind]
  rw [parseKeyChars_round k.data _ hq]
  simp only [Option.some_bind]
  rw [expectChar_same]
  simp only [Option.some_bind]
  rw [expectChar_same]
  simp only [Option.some_bind]
  rw [parseInner_round m f hf rest]
  rfl

theorem parseOuterTail_comma (f : ℕ) (cs : List Char) :
    parseOuterTail (f + 1) (',' :: cs) =
      (do
        let cs' ← expectChar ' ' cs
        let (km, l') ← parseOuterEntry f cs'
        let (rest, l'') ← parseOuterTail f l'
        pure (km :: rest, l'')) := rfl

/-- Fuel needed to parse the encoding of an outer mapping: one unit per
outer item plus one per inner item. -/
def symNeed (M : List (String × List (ℤ × ℤ))) : ℕ :=
  M.length + (M.map (fun km => km.2.length)).sum

theorem parseOuterTail_round :
    ∀ (M : List (String × List (ℤ × ℤ))) (f : ℕ), symNeed M ≤ f →
      (∀ km ∈ M, quoteC ∉ (km.1 : String).data) → ∀ suffix : List Char,
      parseOuterTail f (encodeOuterTail M ++ braceR :: suffix) = some (M, suffix) := by
  intro M
  induction M with
  | nil =>
    intro f _ _ suffix
    cases f <;> rfl
  | cons km M ih =>
    intro f hf hq suffix
    obtain ⟨kk, mm⟩ := km
    simp only [symNeed, List.length_cons, List.map_cons, List.sum_cons] at hf
    cases f with
    | zero => omega
    | succ f =>
      have hnorm : encodeOuterTail ((kk, mm) :: M) ++ braceR :: suffix =
          ',' :: ' ' :: (encodeOuterEntry (kk, mm) ++ (encodeOuterTail M ++ braceR :: suffix)) := by
        rw [encodeOuterTail]
        simp [List.append_assoc]
      rw [hnorm, parseOuterTail_comma, expectChar_same]
      simp only [Option.bind_eq_bind, Option.some_bind]
      rw [parseOuterEntry_round kk mm f _
        (hq (kk, mm) (List.mem_cons_self _ _)) (by omega)]
      simp only [Option.some_bind]
      rw [ih f (by simp only [symNeed]; omega)
        (fun km' hm' => hq km' (List.mem_cons_of_mem _ hm')) suffix]
      rfl

theorem parseOuter_cons (f : ℕ) (c : Char) (cs : List Char) :
    parseOuter f (braceL :: c :: cs) =
      (if c = braceR then some ([], cs)
       else do
        let (km, l2) ← parseOuterEntry f (c :: cs)
        let (rest, l3) ← parseOuterTail f l2
        pure (km :: rest, l3)) := rfl

theorem parseOuter_round :
    ∀ (M : List (String × List (ℤ × ℤ))) (f : ℕ), symNeed M ≤ f →
      (∀ km ∈ M, quoteC ∉ (km.1 : String).data) → ∀ suffix : List Char,
      parseOuter f (encodeOuter M ++ suffix) = some (M, suffix) := by
  intro M f hf hq suffix
  cases M with
  | nil =>
    rw [show encodeOuter [] ++ suffix = braceL :: braceR :: suffix from rfl,
      parseOuter_cons, if_pos rfl]
  | cons km M =>
    obtain ⟨kk, mm⟩ := km
    simp only [symNeed, List.length_cons, List.map_cons, List.sum_cons] at hf
    have hshape : encodeOuter ((kk, mm) :: M) ++ suffix =
        braceL :: (encodeOuterEntry (kk, mm) ++ (encodeOuterTail M ++ braceR :: suffix)) := by
      rw [encodeOuter]
      simp [List.append_assoc]
    rw [hshape]
    have hhead : encodeOuterEntry (kk, mm) ++ (encodeOuterTail M ++ braceR :: suffix) =
        quoteC :: (kk.data ++ (quoteC :: (':' :: (' ' :: (encodeInner mm ++
          (encodeOuterTail M ++ braceR :: suffix)))))) := by
      rw [encodeOuterEntry]
      simp [List.append_assoc]
    rw [hhead, parseOuter_cons, if_neg (show ¬(quoteC = braceR) by decide), ← hhead]
    rw [parseOuterEntry_round kk mm f _
      (hq (kk, mm) (List.mem_cons_self _ _)) (by omega)]
    simp only [Option.bind_eq_bind, Option.some_bind]
    rw [parseOuterTail_round M f (by simp only [symNeed]; omega)
      (fun km' hm' => hq km' (List.mem_cons_of_mem _ hm')) suffix]
    rfl

theorem intChars_length_pos (z : ℤ) : 1 ≤ (intChars z).length := by
  obtain ⟨c, cs, hcons, _⟩ := intChars_cons z
  rw [hcons]
  simp

theorem encodeInnerEntry_length (kv : ℤ × ℤ) : 1 ≤ (encodeInnerEntry kv).length := by
  rw [encodeInnerEntry]
  have := intChars_length_pos kv.1
  simp only [List.length_append, List.length_cons]
  omega

theorem encodeInnerTail_length (m : List (ℤ × ℤ)) :
    m.length ≤ (encodeInnerTail m).length := by
  induction m with
  | nil => simp [encodeInnerTail]
  | cons kv m ih =>
    rw [encodeInnerTail]
    have := encodeInnerEntry_length kv
    simp only [List.length_cons, List.length_append]
    omega

theorem encodeInner_length (m : List (ℤ × ℤ)) :
    m.length ≤ (encodeInner m).length := by
  cases m with
  | nil => simp [encodeInner]
  | cons kv m =>
    rw [encodeInner]
    have h1 := encodeInnerEntry_length kv
    have h2 := encodeInnerTail_length m
    simp only [List.length_append, List.length_cons, List.length_singleton]
    omega

theorem encodeOuterEntry_length (km : String × List (ℤ × ℤ)) :
    km.2.length + 1 ≤ (encodeOuterEntry km).length := by
  rw [encodeOuterEntry]
  have := encodeInner_length km.2
  simp only [List.length_append, List.length_cons]
  omega

theorem encodeOuterTail_length (M : List (String × List (ℤ × ℤ))) :
    symNeed M ≤ (encodeOuterTail M).length := by
  induction M with
  | nil => simp [encodeOuterTail, symNeed]
  | cons km M ih =>
    rw [encodeOuterTail]
    have := encodeOuterEntry_length km
    simp only [symNeed, List.length_cons, List.map_cons, List.sum_cons] at *
    simp only [List.length_append, List.length_cons]
    omega

theorem encodeOuter_length (M : List (String × List (ℤ × ℤ))) :
    symNeed M ≤ (encodeOuter M).length := by
  cases M with
  | nil => simp [encodeOuter, symNeed]
  | cons km M =>
    rw [encodeOuter]
    have h1 := encodeOuterEntry_length km
    have h2 := encodeOuterTail_length M
    simp only [symNeed, List.length_cons, List.map_cons, List.sum_cons] at *
    simp only [List.length_append, List.length_cons, List.length_singleton]
    omega

theorem encodeOuter_ne_nil (M : List (String × List (ℤ × ℤ))) : encodeOuter M ≠ [] := by
  cases M <;> simp [encodeOuter]

/-- Characters that Python `repr` renders verbatim inside a quoted string:
letters, digits and underscores (dimension names in practice). -/
def plainKeyChar (c : Char) : Prop := c.isAlphanum = true ∨ c = '_'

instance (c : Char) : Decidable (plainKeyChar c) := by
  unfold plainKeyChar
  infer_instance

theorem quoteC_not_plain : ¬plainKeyChar quoteC := by decide

/-- C8: round trip of the raw-index symlink registry: for any nested
mapping `M` (plain dimension-name keys, no duplicate keys, as in a Python
dict), reading the registry right after storing `M` returns `M` itself,
inner keys and values as integers; and reading with the variable unset
returns the empty mapping. -/
theorem c8_symlink_round_trip :
    (∀ (M : List (String × List (ℤ × ℤ))) (e : PosixEnv),
      (∀ km ∈ M, ∀ c ∈ (km.1 : String).data, plainKeyChar c) →
      (M.map Prod.fst).Nodup →
      (∀ km ∈ M, (km.2.map Prod.fst).Nodup) →
      getRawIndexSymlinks (setRawIndexSymlinks e (.map M)) = .ok M) ∧
    (∀ e : PosixEnv, e ENV_RAW_INDEX_SYMLINKS = none → getRawIndexSymlinks e = .ok []) := by
  constructor
  · intro M e hkeys _ _
    have hq : ∀ km ∈ M, quoteC ∉ (km.1 : String).data := by
      intro km hm hc
      exact quoteC_not_plain (hkeys km hm quoteC hc)
    have he : setRawIndexSymlinks e (.map M) ENV_RAW_INDEX_SYMLINKS
        = some (String.mk (encodeOuter M)) := by
      rw [setRawIndexSymlinks]
      exact envSet_same e ENV_RAW_INDEX_SYMLINKS (String.mk (encodeOuter M))
    rw [getRawIndexSymlinks, he, getRawIndexSymlinksOfVal,
      if_neg (by simpa using encodeOuter_ne_nil M)]
    have hparse : parseOuter (String.mk (encodeOuter M)).data.length
        (String.mk (encodeOuter M)).data = some (M, []) := by
      have h := parseOuter_round M (encodeOuter M).length (encodeOuter_length M) hq []
      rwa [List.append_nil] at h
    rw [hparse]
    have hmap : M.map (fun km => (km.1, km.2.map (fun sd => (pyIntId sd.1, pyIntId sd.2)))) = M := by
      simp [pyIntId]
    exact congrArg Except.ok hmap
  · intro e h
    rw [getRawIndexSymlinks, h]
    rfl

/-- Witness for C8: a concrete two-entry remapping for dimension `z` round
trips, and the empty environment reads back as the empty mapping. -/
theorem c8_symlink_round_trip_witness :
    getRawIndexSymlinks (setRawIndexSymlinks (fun _ => none)
      (.map [("z", [((0 : ℤ), (1 : ℤ)), (1, 0)])])) = .ok [("z", [(0, 1), (1, 0)])] ∧
    getRawIndexSymlinks (fun _ => none) = .ok [] := by
  constructor
  · exact c8_symlink_round_trip.1 [("z", [(0, 1), (1, 0)])] (fun _ => none)
      (by decide) (by decide) (by decide)
  · exact c8_symlink_round_trip.2 (fun _ => none) rfl

/-! Cytometry engine: object properties and feature calculators
(codex/cytometry/cytometer.py). -/

/-- A labeled-region descriptor as produced by the external measurement
library (`skimage.measure.regionprops`); only the fields the embedded code
reads are modelled. -/
structure RegionProps where
  label : ℕ
  deriving Repr, DecidableEq

/-- A matched cell/nucleus region pair. -/
structure ObjectProperties where
  cell : RegionProps
  nucleus : RegionProps
  deriving Repr, DecidableEq

/-- Embedding of `ObjectProperties.__init__` (cytometer.py:151-161): store
the two descriptors, then fail with ValueError when their labels differ. -/
def objectPropertiesInit (cell nucleus : RegionProps) : Except PyErr ObjectProperties :=
  if cell.label ≠ nucleus.label then
    .error (.valueError "Expecting equal labels for cell and nucleus")
  else .ok ⟨cell, nucleus⟩

/-- A region-adjacency graph, as the embedded code reads it: node id to
association list of (neighbor id, boundary pixel count), mirroring
`graph.adj[id][nid]` with the `count` edge attribute. -/
def RagAdj : Type := List (ℕ × List (ℕ × ℕ))

/-- One row of graph feature values: neighbor count, comma-joined neighbor
id text, per-neighbor boundary fraction, background boundary fraction. -/
structure GraphFeatureRow where
  nNeighbors : ℕ
  neighbors : String
  adjNeighborPct : List ℚ
  adjBgPct : ℚ
  deriving Repr, DecidableEq

/-- Non-background entries of a cell's adjacency list (`nid != 0`). -/
def graphNonBg (nbrs : List (ℕ × ℕ)) : List (ℕ × ℕ) :=
  nbrs.filter (fun kv => kv.1 ≠ 0)

/-- Background boundary weight: the `count` of edge 0 when present. -/
def graphBgWt (nbrs : List (ℕ × ℕ)) : ℕ :=
  match List.lookup 0 nbrs with | some w => w | none => 0

/-- Total boundary weight: background plus non-background neighbor weights. -/
def graphWtSum (nbrs : List (ℕ × ℕ)) : ℕ :=
  graphBgWt nbrs + ((graphNonBg nbrs).map Prod.snd).sum

/-- Embedding of the body of `GraphFeatures.get_feature_values`
(cytometer.py:248-280) given the cell's adjacency entry: split off the
background (id 0) weight, assert a positive total boundary weight, and
return the neighbor count, joined neighbor ids, and the weight fractions
normalised by the total. -/
def graphFeatureValuesOfNbrs (nbrs : List (ℕ × ℕ)) : Except PyErr GraphFeatureRow :=
  if 0 < graphWtSum nbrs then
    .ok ⟨(graphNonBg nbrs).length,
      String.intercalate "," (((graphNonBg nbrs).map Prod.fst).map (fun n => Nat.repr n)),
      ((graphNonBg nbrs).map Prod.snd).map (fun w : ℕ => (w : ℚ) / (graphWtSum nbrs : ℚ)),
      (graphBgWt nbrs : ℚ) / (graphWtSum nbrs : ℚ)⟩
  else .error (.assertionError "Cell has no neighbors and associated boundary pixel counts")

/-- Embedding of `GraphFeatures.get_feature_values`: `graph.adj[label]`
raises KeyError when the node is missing, else the body runs. -/
def graphFeatureValues (graph : RagAdj) (cellLabel : ℕ) : Except PyErr GraphFeatureRow :=
  match List.lookup cellLabel graph with
  | none => .error (.keyError (Nat.repr cellLabel))
  | some nbrs => graphFeatureValuesOfNbrs nbrs

theorem graphFeatureValues_some (graph : RagAdj) (label : ℕ) (nbrs : List (ℕ × ℕ))
    (h : List.lookup label graph = some nbrs) :
    graphFeatureValues graph label = graphFeatureValuesOfNbrs nbrs := by
  rw [graphFeatureValues, h]

theorem sum_map_div (l : List ℕ) (c : ℚ) :
    (l.map (fun w : ℕ => (w : ℚ) / c)).sum = ((l.sum : ℕ) : ℚ) / c := by
  induction l with
  | nil => simp
  | cons w l ih =>
    simp only [List.map_cons, List.sum_cons, ih, List.sum_cons]
    push_cast
    rw [add_div]

/-- C9: for every object looked up in the adjacency graph, when the total
boundary weight (background plus non-background neighbor weights) is
positive the returned per-neighbor fractions plus the background fraction
sum to 1; when the total weight is zero the calculator fails with an
assertion error instead of returning zeros. -/
theorem c9_graph_feature_normalization (graph : RagAdj) (label : ℕ)
    (nbrs : List (ℕ × ℕ)) (h : List.lookup label graph = some nbrs) :
    (∀ row, graphFeatureValues graph label = .ok row →
      row.adjNeighborPct.sum + row.adjBgPct = 1) ∧
    (graphWtSum nbrs = 0 →
      graphFeatureValues graph label =
        .error (.assertionError "Cell has no neighbors and associated boundary pixel counts")) := by
  rw [graphFeatureValues_some graph label nbrs h]
  constructor
  · intro row hrow
    rw [graphFeatureValuesOfNbrs] at hrow
    by_cases hpos : 0 < graphWtSum nbrs
    · rw [if_pos hpos] at hrow
      have hrow' := (Except.ok.inj hrow).symm
      rw [hrow']
      simp only
      rw [sum_map_div _ ((graphWtSum nbrs : ℕ) : ℚ), div_add_div_same]
      rw [show ((((graphNonBg nbrs).map Prod.snd).sum : ℕ) : ℚ) + ((graphBgWt nbrs : ℕ) : ℚ)
          = ((graphWtSum nbrs : ℕ) : ℚ) by rw [graphWtSum]; push_cast; ring]
      exact div_self (by positivity)
    · rw [if_neg hpos] at hrow
      exact absurd hrow (by simp)
  · intro hzero
    rw [graphFeatureValuesOfNbrs, if_neg (by omega)]

/-- Witness for C9: a cell present in the graph with an empty adjacency
entry has zero total boundary weight and trips the assertion. -/
theorem c9_graph_feature_normalization_witness :
    List.lookup 1 [(1, ([] : List (ℕ × ℕ)))] = some [] ∧
    graphWtSum ([] : List (ℕ × ℕ)) = 0 ∧
    graphFeatureValues [(1, ([] : List (ℕ × ℕ)))] 1 =
      .error (.assertionError "Cell has no neighbors and associated boundary pixel counts") :=
  ⟨by decide, by decide,
    (c9_graph_feature_normalization [(1, [])] 1 [] (by decide)).2 (by decide)⟩

/-! Cytometry pipeline operation (codex/ops/cytometry.py). -/

/-- Name of the 2-D model path override variable (codex/__init__.py:8). -/
def ENV_CYTOMETRY_2D_MODEL_PATH : String := "CODEX_CYTOMETRY_2D_MODEL_PATH"

/-- `os.path.join` for the relative path components used here. -/
def ospJoin (parts : List String) : String := String.intercalate "/" parts

/-- Embedding of `get_model_path` (ops/cytometry.py:12-16).  Python
evaluates `os.getenv`'s default argument eagerly, so the
`os.environ['CODEX_DATA_DIR']` subscript raises KeyError whenever that
variable is unset, before the override is consulted. -/
def getModelPath (e : PosixEnv) : Except PyErr String :=
  match e "CODEX_DATA_DIR" with
  | none => .error (.keyError "CODEX_DATA_DIR")
  | some d =>
    .ok ((e ENV_CYTOMETRY_2D_MODEL_PATH).getD
      (ospJoin [d, "modeling", "cytopy", "models", "nuclei", "v0.3", "nuclei_model.h5"]))

/-- A Python value passed in the `target_shape` position of
`KerasCytometer2D.__init__`: an HW tuple, or (as actually happens in
`Cytometry.initialize`) a string. -/
inductive PyShapeArg where
  | tup (l : List ℕ)
  | str (s : String)
  deriving Repr, DecidableEq

/-- Python `len` of such a value. -/
def pyShapeLen : PyShapeArg → ℕ
  | .tup l => l.length
  | .str s => s.length

/-- State of a constructed `KerasCytometer2D` (cytometer.py:26-47). -/
structure KerasCytometer2D where
  input_shape : List ℕ
  target_shape : Option PyShapeArg
  weights_path : Option String
  initialized : Bool
  resize : Bool
  deriving Repr, DecidableEq

/-- The `resize` flag: enabled only when a target shape is given and
differs from the input's HW part (a string never equals a tuple in
Python, so a string target always enables it). -/
def resizeFlag (input_shape : List ℕ) : Option PyShapeArg → Bool
  | none => false
  | some (.tup l) => decide (l ≠ input_shape.take 2)
  | some (.str _) => true

/-- Embedding of `KerasCytometer2D.__init__` (cytometer.py:26-47): store
the shapes and weights path, reject an input shape that is not a 3-tuple
and a target shape whose `len` is not 2, then compute the resize flag.
`Cytometer2D` inherits this constructor unchanged. -/
def kerasCytometer2DInit (input_shape : List ℕ) (target_shape : Option PyShapeArg)
    (weights_path : Option String) : Except PyErr KerasCytometer2D :=
  if input_shape.length ≠ 3 then .error (.valueError "Input shape must be HWC 3 tuple")
  else
    match target_shape with
    | some t =>
      if pyShapeLen t ≠ 2 then .error (.valueError "Target shape must be HW 2 tuple")
      else .ok ⟨input_shape, some t, weights_path, false, resizeFlag input_shape (some t)⟩
    | none => .ok ⟨input_shape, none, weights_path, false, false⟩

/-- Embedding of `Cytometry.initialize` (ops/cytometry.py:53-61): resolve
the model path, then construct the engine as `Cytometer2D(self.input_shape,
model_path)` — the model path is passed as the second positional argument,
which is `target_shape`, not `weights_path`.  The engine's own
`initialize()` (external model build and weight load) runs only if the
constructor returns. -/
def cytometryInitialize (e : PosixEnv) (input_shape : List ℕ) :
    Except PyErr KerasCytometer2D := do
  let model_path ← getModelPath e
  kerasCytometer2DInit input_shape (some (.str model_path)) none

/-- C1 (code defect): with `CODEX_DATA_DIR=/data` and the override unset,
the resolved model path is the documented default, yet `initialize` raises
ValueError from the engine constructor because the path is passed in the
`target_shape` position (its `len` is not 2); `weights_path` is never set
to the resolved path, contradicting the claim that the engine is built
against it. -/
theorem c1_initialize_target_shape_bug :
    getModelPath (fun s => if s = "CODEX_DATA_DIR" then some "/data" else none) =
      .ok "/data/modeling/cytopy/models/nuclei/v0.3/nuclei_model.h5" ∧
    cytometryInitialize (fun s => if s = "CODEX_DATA_DIR" then some "/data" else none)
      [1008, 1344, 1] = .error (.valueError "Target shape must be HW 2 tuple") := by
  constructor
  · rfl
  · rfl

/-- A 2-D image plane of unsigned pixel values (height-major). -/
abbrev Plane : Type := List (List ℕ)

/-- A z-stack of planes. -/
abbrev ZStack : Type := List Plane

/-- A 5-D tile indexed (cycle, z, channel, height, width). -/
abbrev Tile : Type := List (List (List Plane))

/-- A binary image plane. -/
abbrev BinPlane : Type := List (List Bool)

/-- A segmentation volume: per z-plane the (cell, nucleus) label images,
matching the engine's (z, component, height, width) layout. -/
abbrev SegVol : Type := List (Plane × Plane)

/-- A mask volume: per z-plane the (nucleus-interior, marker, final
segmentation) binary masks. -/
abbrev MaskVol : Type := List (BinPlane × BinPlane × BinPlane)

/-- `tile[cyc, :, ch]` : the z-stack of one channel of one cycle. -/
def extractStack (tile : Tile) (cyc ch : ℕ) : ZStack :=
  (tile.getD cyc []).map (fun zslice => zslice.getD ch [])

/-- Minimum of a list of naturals, with NumPy's convention that the
minimum of a nonempty data set is its least element. -/
def listMinD : List ℕ → ℕ
  | [] => 0
  | v :: vs => vs.foldl Nat.min v

/-- All pixel values of a volume. -/
def volVals (vol : List Plane) : List ℕ := (vol.map (fun p => p.flatten)).flatten

/-- Maximum pixel value of a plane. -/
def planeMax (p : Plane) : ℕ := p.flatten.foldr Nat.max 0

/-- `img_seg.max()` over the whole (z, component, h, w) volume. -/
def segMax (v : SegVol) : ℕ :=
  (v.map (fun zc => Nat.max (planeMax zc.1) (planeMax zc.2))).foldr Nat.max 0

/-- Pointwise product of a binary plane with a labeled plane
(`res * img`). -/
def mulBinPlane (b : BinPlane) (p : Plane) : Plane :=
  List.zipWith (List.zipWith (fun (x : Bool) (v : ℕ) => if x then v else 0)) b p

/-- Embedding of `_find_boundaries` (ops/cytometry.py:136-152) in its
`as_binary=False` form (the only form the operation uses): the external
`skimage.segmentation.find_boundaries` call is the hook `fb`, applied per
z-plane with the volume-wide minimum as background, and the result is
multiplied back onto the labels. -/
def findBoundariesLabeled (fb : Plane → ℕ → BinPlane) (vol : List Plane) : List Plane :=
  vol.map (fun p => mulBinPlane (fb p (listMinD (volVals vol))) p)

/-- `astype(np.uint16)` on a plane. -/
def planeMod16 (p : Plane) : Plane := p.map (fun row => row.map (fun v => v % 65536))

/-- The 5-D uint16 label tile: the segmentation volume stacked with the
per-component boundary volume (ops/cytometry.py:98-105). -/
def buildLabelTile (fb : Plane → ℕ → BinPlane) (segVol : SegVol) :
    (List (Plane × Plane)) × (List (Plane × Plane)) :=
  (segVol.map (fun zc => (planeMod16 zc.1, planeMod16 zc.2)),
   (List.zip (findBoundariesLabeled fb (segVol.map Prod.fst))
      (findBoundariesLabeled fb (segVol.map Prod.snd))).map
      (fun zc => (planeMod16 zc.1, planeMod16 zc.2)))

/-- `img_bin * 255` as uint8 (ops/cytometry.py:108). -/
def masksToU8 (m : MaskVol) : List (Plane × Plane × Plane) :=
  m.map (fun t =>
    (t.1.map (fun row => row.map (fun b => if b then 255 else 0)),
     t.2.1.map (fun row => row.map (fun b => if b then 255 else 0)),
     t.2.2.map (fun row => row.map (fun b => if b then 255 else 0))))

/-- Channel-coordinate configuration of the cytometry operation
(ops/cytometry.py:44-46): required nuclei coordinates and optional
membrane coordinates. -/
structure CytometryOpCfg where
  nucCoords : ℕ × ℕ
  memCoords : Option (ℕ × ℕ)
  deriving Repr, DecidableEq

/-- The engine as seen by the pipeline operation: `segment` returns the
labeled volume, the raw prediction volume (opaque here), and the optional
mask volume; `quantify` returns the stats table (opaque here). -/
structure CytometerApi (π σ : Type) where
  segment : ZStack → Option ZStack → Except PyErr (SegVol × π × Option MaskVol)
  quantify : Tile → SegVol → Except PyErr σ

/-- The body of `Cytometry._run_2d` after the membrane branch
(ops/cytometry.py:78-110): run segmentation (note: the membrane stack was
extracted at the *nuclei* coordinates, preserving the source's lines
74-76), enforce the 16-bit label bound, quantify, build boundary and label
tiles, and rescale the masks (a missing mask volume is a TypeError at the
`img_bin[np.newaxis]` subscript). -/
def run2dBody {π σ : Type} (cfg : CytometryOpCfg) (api : CytometerApi π σ)
    (fb : Plane → ℕ → BinPlane) (tile : Tile) :
    Except PyErr (((List (Plane × Plane)) × (List (Plane × Plane)))
      × List (Plane × Plane × Plane) × σ) := do
  let r ← api.segment (extractStack tile cfg.nucCoords.1 cfg.nucCoords.2)
    (some (extractStack tile cfg.nucCoords.1 cfg.nucCoords.2))
  -- integer dtype and nonnegative label assertions (lines 81-85) hold by
  -- the ℕ pixel type of the embedding
  if 65535 < segMax r.1 then
    .error (.valueError "Segmentation resulted in too many cells for the 16-bit format")
  else do
    let stats ← api.quantify tile r.1
    match r.2.2 with
    | none => .error (.typeError "NoneType object is not subscriptable")
    | some masks => .ok (buildLabelTile fb r.1, masksToU8 masks, stats)

/-- Embedding of `Cytometry._run_2d` (ops/cytometry.py:67-110): the local
`img_memb` is only assigned inside the membrane-configured branch, yet the
`segment` call reads it unconditionally, so with no membrane channel the
function raises UnboundLocalError before the engine is reached. -/
def run2d {π σ : Type} (cfg : CytometryOpCfg) (api : CytometerApi π σ)
    (fb : Plane → ℕ → BinPlane) (tile : Tile) :
    Except PyErr (((List (Plane × Plane)) × (List (Plane × Plane)))
      × List (Plane × Plane × Plane) × σ) :=
  match cfg.memCoords with
  | none => .error (.unboundLocalError "img_memb")
  | some _ => run2dBody cfg api fb tile

theorem run2d_some {π σ : Type} (cfg : CytometryOpCfg) (api : CytometerApi π σ)
    (fb : Plane → ℕ → BinPlane) (tile : Tile) (mc : ℕ × ℕ)
    (h : cfg.memCoords = some mc) :
    run2d cfg api fb tile = run2dBody cfg api fb tile := by
  rw [run2d, h]

/-- C3: whenever no membrane channel is configured, the 2-D execution path
fails with UnboundLocalError on `img_memb` for every tile, independently of
the engine (quantified over every `segment`/`quantify` behaviour), so the
engine can only be reached when a membrane channel is configured. -/
theorem c3_run2d_unbound_membrane {π σ : Type} (cfg : CytometryOpCfg)
    (api : CytometerApi π σ) (fb : Plane → ℕ → BinPlane) (tile : Tile)
    (h : cfg.memCoords = none) :
    run2d cfg api fb tile = .error (.unboundLocalError "img_memb") := by
  rw [run2d, h]

/-- Witness for C3 at a concrete configuration and tile. -/
theorem c3_run2d_unbound_membrane_witness :
    (CytometryOpCfg.mk (0, 0) none).memCoords = none ∧
    run2d (CytometryOpCfg.mk (0, 0) none)
      (CytometerApi.mk (π := Unit) (σ := Unit)
        (fun _ _ => .ok ([], (), none)) (fun _ _ => .ok ()))
      (fun _ _ => []) [[[[[1]]]]] = .error (.unboundLocalError "img_memb") :=
  ⟨rfl, c3_run2d_unbound_membrane _ _ _ _ rfl⟩

theorem exceptBindOk {ε α β : Type} (a : α) (f : α → Except ε β) :
    (Except.ok a : Except ε α) >>= f = f a := rfl

/-- C5: once segmentation produced a labeled volume, a maximum label above
65535 makes the operation fail with ValueError before any result triple
(label tile, mask tile, stats) is produced — `save` consumes that triple,
so none of the three output artifacts can be written — while a maximum
label of at most 65535 passes the guard and execution proceeds through
quantification to the assembled outputs. -/
theorem c5_label_overflow_guard {π σ : Type} (cfg : CytometryOpCfg)
    (api : CytometerApi π σ) (fb : Plane → ℕ → BinPlane) (tile : Tile)
    (mc : ℕ × ℕ) (hmem : cfg.memCoords = some mc)
    (segVol : SegVol) (p : π) (masks : MaskVol)
    (hseg : api.segment (extractStack tile cfg.nucCoords.1 cfg.nucCoords.2)
      (some (extractStack tile cfg.nucCoords.1 cfg.nucCoords.2))
      = .ok (segVol, p, some masks)) :
    (65535 < segMax segVol →
      run2d cfg api fb tile =
        .error (.valueError "Segmentation resulted in too many cells for the 16-bit format")) ∧
    (segMax segVol ≤ 65535 → ∀ stats : σ, api.quantify tile segVol = .ok stats →
      run2d cfg api fb tile = .ok (buildLabelTile fb segVol, masksToU8 masks, stats)) := by
  rw [run2d_some cfg api fb tile mc hmem, run2dBody, hseg, exceptBindOk]
  constructor
  · intro hgt
    simp only
    rw [if_pos hgt]
  · intro hle stats hquant
    simp only
    rw [if_neg (by omega), hquant, exceptBindOk]

/-- Concrete configuration for the C5 witness. -/
def c5Cfg : CytometryOpCfg := ⟨(0, 0), some (0, 0)⟩

/-- A segmentation volume whose maximum label is 65536. -/
def c5SegHigh : SegVol := [([[65536]], [[65536]])]

/-- A segmentation volume whose maximum label is exactly 65535. -/
def c5SegOk : SegVol := [([[65535]], [[65535]])]

/-- A one-plane mask volume. -/
def c5Masks : MaskVol := [([[true]], [[true]], [[true]])]

/-- Engine stub returning the overflowing segmentation. -/
def c5ApiHigh : CytometerApi Unit Unit :=
  ⟨fun _ _ => .ok (c5SegHigh, (), some c5Masks), fun _ _ => .ok ()⟩

/-- Engine stub returning the largest representable segmentation. -/
def c5ApiOk : CytometerApi Unit Unit :=
  ⟨fun _ _ => .ok (c5SegOk, (), some c5Masks), fun _ _ => .ok ()⟩

/-- Witness for C5: label 65536 aborts with ValueError, label 65535
passes the guard and yields the assembled outputs. -/
theorem c5_label_overflow_guard_witness :
    c5Cfg.memCoords = some (0, 0) ∧
    65535 < segMax c5SegHigh ∧
    run2d c5Cfg c5ApiHigh (fun _ _ => []) [[[[[1]]]]] =
      .error (.valueError "Segmentation resulted in too many cells for the 16-bit format") ∧
    segMax c5SegOk ≤ 65535 ∧
    run2d c5Cfg c5ApiOk (fun _ _ => []) [[[[[1]]]]] =
      .ok (buildLabelTile (fun _ _ => []) c5SegOk, masksToU8 c5Masks, ()) := by
  refine ⟨rfl, by decide, ?_, by decide, ?_⟩
  · exact (c5_label_overflow_guard c5Cfg c5ApiHigh (fun _ _ => []) [[[[[1]]]]]
      (0, 0) rfl c5SegHigh () c5Masks rfl).1 (by decide)
  · exact (c5_label_overflow_guard c5Cfg c5ApiOk (fun _ _ => []) [[[[[1]]]]]
      (0, 0) rfl c5SegOk () c5Masks rfl).2 (by decide) () rfl

/-- Tile with distinguishable channel stacks for the C2 defect theorem:
2 cycles, 1 z-plane, 2 channels, 1x1 planes. -/
def c2Tile : Tile := [[[[[1]], [[2]]]], [[[[3]], [[4]]]]]

/-- Operation configured with nuclei channel (0, 0) and membrane channel
(1, 1). -/
def c2Cfg : CytometryOpCfg := ⟨(0, 0), some (1, 1)⟩

/-- Probe engine whose `segment` reports which membrane stack it was
handed. -/
def c2Api : CytometerApi Unit Unit :=
  ⟨fun _nuc memb =>
    if memb = some (extractStack c2Tile 0 0) then
      .error (.valueError "membrane stack taken from nuclei coordinates")
    else .error (.valueError "membrane stack taken from membrane coordinates"),
   fun _ _ => .ok ()⟩

/-- C2 (code defect): the membrane-coordinate stack differs from the
nuclei-coordinate stack in this tile, yet the execution hands `segment`
the stack extracted at the *nuclei* coordinates (ops/cytometry.py:74-76
assigns `memb_cycle`/`memb_channel` from `nuc_channel_coords`), refuting
the claim that the membrane z-stack is extracted at the membrane
channel's resolved coordinates. -/
theorem c2_membrane_extraction_uses_nuclei_coords :
    extractStack c2Tile 0 0 ≠ extractStack c2Tile 1 1 ∧
    run2d c2Cfg c2Api (fun _ _ => []) c2Tile =
      .error (.valueError "membrane stack taken from nuclei coordinates") := by
  exact ⟨by decide, rfl⟩

/-! Segmentation algorithm (cytometer.py:296-391). -/

/-- One z-plane of the network's class-probability output
(background, nucleus interior, nucleus border); `segment` asserts exactly
three output channels, which the triple type captures. -/
abbrev PredPlane : Type := List (List (ℚ × ℚ × ℚ))

/-- A real-valued image plane (intermediate membrane processing, basins). -/
abbrev QPlane : Type := List (List ℚ)

/-- Bit depth tag of a segmentation input image. -/
inductive Dtype where
  | uint8
  | uint16
  | other
  deriving Repr, DecidableEq

/-- A raw input image: a z-stack with its dtype. -/
structure RawImg where
  dtype : Dtype
  data : ZStack
  deriving Repr, DecidableEq

/-- External image-processing and inference collaborators used by
`Cytometer2D.segment` (skimage, cv2, scipy, and the network forward
pass). -/
structure SegExternal where
  rescale16to8 : Plane → Plane
  predictProbs : ZStack → List PredPlane
  removeSmallObjects : BinPlane → ℕ → BinPlane
  dilateDisk : BinPlane → ℕ → BinPlane
  labelCC : BinPlane → Plane
  edt : BinPlane → QPlane
  watershed : QPlane → Plane → BinPlane → Plane
  gaussianBlur : QPlane → ℚ → QPlane
  adjustGamma : QPlane → ℚ → QPlane
  otsu : QPlane → ℚ

/-- Embedding of `_to_uint8` (cytometer.py:140-148): 8-bit passes through,
16-bit is rescaled, anything else fails with ValueError. -/
def toUint8 (ext : SegExternal) (img : RawImg) : Except PyErr ZStack :=
  match img.dtype with
  | .uint8 => .ok img.data
  | .uint16 => .ok (img.data.map ext.rescale16to8)
  | .other => .error (.valueError "Image must be 8 or 16 bit for segmentation")

/-- `np.argmax(probs) == 1` per pixel, with NumPy's first-maximum
convention: channel 1 wins when it beats channel 0 strictly and channel 2
weakly. -/
def argmaxIs1 (t : ℚ × ℚ × ℚ) : Bool :=
  decide (t.1 < t.2.1) && decide (¬t.2.1 < t.2.2)

/-- The marker mask: interior-class argmax over a prediction plane. -/
def argmaxPlane (pp : PredPlane) : BinPlane := pp.map (fun row => row.map argmaxIs1)

/-- Pointwise OR of two binary planes. -/
def orBin (a b : BinPlane) : BinPlane := List.zipWith (List.zipWith or) a b

/-- Integer plane viewed as reals for the membrane processing chain. -/
def planeQ (p : Plane) : QPlane := p.map (fun row => row.map (fun v : ℕ => (v : ℚ)))

/-- Embedding of `Cytometer2D.get_segmentation_mask` (cytometer.py:296-312):
dilate the nucleus-interior mask by the configured radius; with no membrane
image that is the mask, otherwise OR it with the Otsu-thresholded (after
optional Gaussian smoothing and gamma adjustment) membrane plane. -/
def getSegmentationMask (ext : SegExternal) (img_bin_nuci : BinPlane)
    (img_memb : Option Plane) (dilation_factor : ℕ) (sigma gamma : Option ℚ) : BinPlane :=
  let nuci := if 0 < dilation_factor then ext.dilateDisk img_bin_nuci dilation_factor
    else img_bin_nuci
  match img_memb with
  | none => nuci
  | some m =>
    let mq := planeQ m
    let mq1 := match sigma with | some s => ext.gaussianBlur mq s | none => mq
    let mq2 := match gamma with | some g => ext.adjustGamma mq1 g | none => mq1
    orBin (mq2.map (fun row => row.map (fun v => decide (ext.otsu mq2 < v)))) nuci

/-- Embedding of the nucleus-labeling step (cytometer.py:368-369):
`((img_cell_seg > 0) & img_bin_nuci) * img_cell_seg`. -/
def nucSegPlane (cell : Plane) (nuci : BinPlane) : Plane :=
  List.zipWith (List.zipWith (fun (c : ℕ) (b : Bool) => if 0 < c ∧ b then c else 0)) cell nuci

/-- Embedding of one iteration of the per-plane loop of `Cytometer2D.segment`
(cytometer.py:339-379): marker mask from the interior argmax, small-object
removal, 1-pixel dilation to the nucleus interior, connected-component
labels, negated distance-transform basin, segmentation mask, watershed cell
labels, and the nucleus labels derived from them. -/
def segmentPlane (ext : SegExternal) (predPl : PredPlane) (membPl : Option Plane)
    (nucleus_dilation min_size : ℕ) (sigma gamma : Option ℚ) :
    (Plane × Plane) × (BinPlane × BinPlane × BinPlane) :=
  let bin_nucm0 := argmaxPlane predPl
  let bin_nucm := if 0 < min_size then ext.removeSmallObjects bin_nucm0 min_size else bin_nucm0
  let bin_nuci := ext.dilateDisk bin_nucm 1
  let nucm_label := ext.labelCC bin_nucm
  let basin := (ext.edt bin_nucm).map (fun row => row.map (fun v => -v))
  let bin_mask := getSegmentationMask ext bin_nuci membPl nucleus_dilation sigma gamma
  let cell := ext.watershed basin nucm_label bin_mask
  ((cell, nucSegPlane cell bin_nuci), (bin_nuci, bin_nucm, bin_mask))

/-- The pure core of `Cytometer2D.segment` after 8-bit normalisation: run
inference over the whole stack, apply the per-plane pipeline, and stack
the per-plane label pairs (and masks when requested). -/
def cytoSegmentCore (ext : SegExternal) (img_nuc : ZStack) (img_memb : Option ZStack)
    (nucleus_dilation min_size : ℕ) (sigma gamma : Option ℚ) (return_masks : Bool) :
    SegVol × List PredPlane × Option MaskVol :=
  ((List.range img_nuc.length).map (fun i =>
      (segmentPlane ext ((ext.predictProbs img_nuc).getD i [])
        (img_memb.map (fun m => m.getD i []))
        nucleus_dilation min_size sigma gamma).1),
   ext.predictProbs img_nuc,
   if return_masks then
     some ((List.range img_nuc.length).map (fun i =>
       (segmentPlane ext ((ext.predictProbs img_nuc).getD i [])
         (img_memb.map (fun m => m.getD i []))
         nucleus_dilation min_size sigma gamma).2))
   else none)

/-- Embedding of `Cytometer2D.segment` (cytometer.py:314-391): normalise
the nucleus (and optional membrane) image to 8-bit, then run the pure
segmentation core.  A bare 2-D input is promoted to a one-plane stack by
the source, so inputs are modelled as stacks. -/
def cytoSegment (ext : SegExternal) (img_nuc_raw : RawImg) (img_memb_raw : Option RawImg)
    (nucleus_dilation min_size : ℕ) (sigma gamma : Option ℚ) (return_masks : Bool) :
    Except PyErr (SegVol × List PredPlane × Option MaskVol) := do
  let img_nuc ← toUint8 ext img_nuc_raw
  match img_memb_raw with
  | none =>
    pure (cytoSegmentCore ext img_nuc none nucleus_dilation min_size sigma gamma return_masks)
  | some r => do
    let m8 ← toUint8 ext r
    pure (cytoSegmentCore ext img_nuc (some m8) nucleus_dilation min_size sigma gamma
      return_masks)

theorem exceptBindErr {ε α β : Type} (e : ε) (f : α → Except ε β) :
    (Except.error e : Except ε α) >>= f = .error e := rfl

theorem zipWith_mem_exists {α β γ : Type} (f : α → β → γ) :
    ∀ (as : List α) (bs : List β) (x : γ), x ∈ List.zipWith f as bs →
      ∃ a b, a ∈ as ∧ b ∈ bs ∧ x = f a b := by
  intro as
  induction as with
  | nil => intro bs x h; simp at h
  | cons a as ih =>
    intro bs x h
    cases bs with
    | nil => simp at h
    | cons b bs =>
      rw [List.zipWith_cons_cons, List.mem_cons] at h
      rcases h with rfl | h
      · exact ⟨a, b, List.mem_cons_self a as, List.mem_cons_self b bs, rfl⟩
      · obtain ⟨a', b', ha, hb, hx⟩ := ih bs x h
        exact ⟨a', b', List.mem_cons_of_mem a ha, List.mem_cons_of_mem b hb, hx⟩

theorem nucSegPlane_subset (cell : Plane) (nuci : BinPlane) (label : ℕ)
    (h0 : label ≠ 0) (h : label ∈ (nucSegPlane cell nuci).flatten) :
    label ∈ cell.flatten := by
  rw [List.mem_flatten] at h
  obtain ⟨row, hrow, hin⟩ := h
  obtain ⟨cr, nr, hcr, _, rfl⟩ := zipWith_mem_exists _ cell nuci row hrow
  obtain ⟨c, b, hc, _, hx⟩ := zipWith_mem_exists _ cr nr label hin
  rw [List.mem_flatten]
  refine ⟨cr, hcr, ?_⟩
  by_cases hcb : 0 < c ∧ b = true
  · rw [hx, if_pos hcb]; exact hc
  · rw [hx, if_neg hcb] at h0 ⊢
    exact absurd rfl h0

theorem segmentPlane_pairing (ext : SegExternal) (predPl : PredPlane)
    (membPl : Option Plane) (nd ms : ℕ) (sigma gamma : Option ℚ) (label : ℕ)
    (h0 : label ≠ 0)
    (h : label ∈ (segmentPlane ext predPl membPl nd ms sigma gamma).1.2.flatten) :
    label ∈ (segmentPlane ext predPl membPl nd ms sigma gamma).1.1.flatten := by
  simp only [segmentPlane] at h ⊢
  exact nucSegPlane_subset _ _ label h0 h

theorem cytoSegmentCore_pairing (ext : SegExternal) (img_nuc : ZStack)
    (img_memb : Option ZStack) (nd ms : ℕ) (sigma gamma : Option ℚ) (rm : Bool)
    (zpair : Plane × Plane)
    (hz : zpair ∈ (cytoSegmentCore ext img_nuc img_memb nd ms sigma gamma rm).1)
    (label : ℕ) (h0 : label ≠ 0) (hmem : label ∈ zpair.2.flatten) :
    label ∈ zpair.1.flatten := by
  rw [cytoSegmentCore] at hz
  simp only [List.mem_map] at hz
  obtain ⟨i, _, hpair⟩ := hz
  rw [← hpair] at hmem ⊢
  exact segmentPlane_pairing ext _ _ nd ms sigma gamma label h0 hmem

/-- C4: for every successful `segment()` call and every z-plane of its
labeled output, every positive label of the nucleus channel is present in
the cell channel of the same plane; and constructing an `ObjectProperties`
pair from regions with different labels fails with ValueError. -/
theorem c4_segment_label_pairing :
    (∀ (ext : SegExternal) (img_nuc : RawImg) (img_memb : Option RawImg)
      (nd ms : ℕ) (sigma gamma : Option ℚ) (rm : Bool)
      (segVol : SegVol) (pv : List PredPlane) (mv : Option MaskVol),
      cytoSegment ext img_nuc img_memb nd ms sigma gamma rm = .ok (segVol, pv, mv) →
      ∀ zpair ∈ segVol, ∀ label : ℕ, label ≠ 0 →
        label ∈ zpair.2.flatten → label ∈ zpair.1.flatten) ∧
    (∀ cell nucleus : RegionProps, cell.label ≠ nucleus.label →
      objectPropertiesInit cell nucleus =
        .error (.valueError "Expecting equal labels for cell and nucleus")) := by
  constructor
  · intro ext img_nuc img_memb nd ms sigma gamma rm segVol pv mv h zpair hz label h0 hmem
    rw [cytoSegment] at h
    cases hnuc : toUint8 ext img_nuc with
    | error e =>
      rw [hnuc, exceptBindErr] at h
      exact absurd h (by simp)
    | ok n8 =>
      rw [hnuc, exceptBindOk] at h
      cases img_memb with
      | none =>
        have hseg : segVol = (cytoSegmentCore ext n8 none nd ms sigma gamma rm).1 :=
          (congrArg (fun t => t.1) (Except.ok.inj h)).symm
        rw [hseg] at hz
        exact cytoSegmentCore_pairing ext n8 none nd ms sigma gamma rm zpair hz label h0 hmem
      | some rmemb =>
        simp only at h
        cases hm : toUint8 ext rmemb with
        | error e =>
          rw [hm, exceptBindErr] at h
          exact absurd h (by simp)
        | ok m8 =>
          rw [hm, exceptBindOk] at h
          have hseg : segVol = (cytoSegmentCore ext n8 (some m8) nd ms sigma gamma rm).1 :=
            (congrArg (fun t => t.1) (Except.ok.inj h)).symm
          rw [hseg] at hz
          exact cytoSegmentCore_pairing ext n8 (some m8) nd ms sigma gamma rm zpair hz
            label h0 hmem
  · intro cell nucleus hne
    rw [objectPropertiesInit, if_pos hne]

/-- Trivial concrete collaborators for the C4 witness: identity-like image
operations, a constant interior prediction, and a watershed that returns
its markers. -/
def c4Ext : SegExternal :=
  ⟨id,
   fun ns => ns.map (fun p => p.map (fun row => row.map (fun _ => ((0 : ℚ), 1, 0)))),
   fun b _ => b,
   fun b _ => b,
   fun b => b.map (fun row => row.map (fun x => if x then 1 else 0)),
   fun b => b.map (fun row => row.map (fun _ => (0 : ℚ))),
   fun _ markers _ => markers,
   fun m _ => m,
   fun m _ => m,
   fun _ => 0⟩

/-- Witness for C4: on a one-pixel uint8 stack the stubbed pipeline labels
the pixel 1 in both channels, and the pairing theorem transports the
nucleus label into the cell plane; the mismatched `ObjectProperties`
construction fails. -/
theorem c4_segment_label_pairing_witness :
    cytoSegment c4Ext ⟨.uint8, [[[1]]]⟩ none 4 12 none none true =
      .ok ([([[1]], [[1]])], [[[(0, 1, 0)]]], some [([[true]], [[true]], [[true]])]) ∧
    (([[1]], [[1]]) : Plane × Plane) ∈ [(([[1]], [[1]]) : Plane × Plane)] ∧
    (1 : ℕ) ∈ ([[1]] : Plane).flatten ∧
    objectPropertiesInit ⟨1⟩ ⟨2⟩ =
      .error (.valueError "Expecting equal labels for cell and nucleus") := by
  refine ⟨rfl, List.mem_singleton_self _, ?_, ?_⟩
  · exact c4_segment_label_pairing.1 c4Ext ⟨.uint8, [[[1]]]⟩ none 4 12 none none true
      [([[1]], [[1]])] [[[(0, 1, 0)]]] (some [([[true]], [[true]], [[true]])]) rfl
      ([[1]], [[1]]) (List.mem_singleton_self _) 1 (by decide) (by decide)
  · exact c4_segment_label_pairing.2 ⟨1⟩ ⟨2⟩ (by decide)

/-! Best-focus z-plane selection (codex/ops/best_focus.py:50-76). -/

/-- `np.arange(n_classes)[::-1]` as rationals: the reversed class indices
`[n-1, ..., 0]`. -/
def revWeights (n : ℕ) : List ℚ := ((List.range n).reverse).map (fun c : ℕ => (c : ℚ))

/-- Dot product of two probability/weight vectors. -/
def dotQ (p w : List ℚ) : ℚ := (List.zipWith (· * ·) p w).sum

/-- Fold of `np.argmax`: carry the first maximising index and its value. -/
def argmaxAux : List ℚ → ℕ → (ℕ × ℚ) → (ℕ × ℚ)
  | [], _, best => best
  | x :: xs, i, best => argmaxAux xs (i + 1) (if best.2 < x then (i, x) else best)

/-- `np.argmax`: the first index attaining the maximum (0 on empty input,
where NumPy would raise). -/
def argmaxFirst : List ℚ → ℕ
  | [] => 0
  | x :: xs => (argmaxAux xs 1 (0, x)).1

/-- Embedding of `CodexFocalPlaneSelector._run` (best_focus.py:50-76):
extract the reference-channel stack, score each plane as the dot product of
its class probabilities (the external classifier hook `predictProbs`) with
the reversed class indices, pick the arg-max plane, and subset the tile to
that plane.  The `len(scores) == nz` assertion holds by construction of the
maps. -/
def bestFocusRun (focusCycle focusChannel nClasses : ℕ)
    (predictProbs : Plane → List ℚ) (tile : Tile) : Tile × ℕ × List ℚ :=
  let img := extractStack tile focusCycle focusChannel
  let scores := (img.map predictProbs).map (fun p => dotQ p (revWeights nClasses))
  let best_z := argmaxFirst scores
  (tile.map (fun cyc => [cyc.getD best_z []]), best_z, scores)

/-- Probability vector concentrated on class 0. -/
def oneHot0 (n : ℕ) : List ℚ := 1 :: List.replicate (n - 1) 0

/-- Probability vector concentrated on class `n - 1`. -/
def oneHotLast (n : ℕ) : List ℚ := List.replicate (n - 1) 0 ++ [1]

theorem revWeights_succ (m : ℕ) :
    revWeights (m + 1) = (m : ℚ) :: revWeights m := by
  rw [revWeights, revWeights, List.range_succ, List.reverse_append]
  rfl

theorem dot_revWeights (p : List ℚ) :
    ∀ n : ℕ, p.length = n →
      dotQ p (revWeights n) =
        ((List.range n).map (fun c => p.getD c 0 * ((n - 1 - c : ℕ) : ℚ))).sum := by
  induction p with
  | nil =>
    intro n hn
    rw [← hn]
    simp [dotQ]
  | cons x xs ih =>
    intro n hn
    cases n with
    | zero => simp at hn
    | succ m =>
      rw [revWeights_succ, List.range_succ_eq_map]
      simp only [dotQ, List.zipWith_cons_cons, List.sum_cons, List.map_cons, List.map_map]
      rw [show (List.zipWith (· * ·) xs (revWeights m)).sum = dotQ xs (revWeights m) from rfl]
      rw [ih m (by simpa using hn)]
      refine congrArg₂ (· + · : ℚ → ℚ → ℚ) ?_
        (congrArg List.sum (List.map_congr_left fun c _ => ?_))
      · simp
      · simp only [Function.comp_apply, List.getD_cons_succ]
        refine congrArg₂ (· * · : ℚ → ℚ → ℚ) rfl (congrArg (fun k : ℕ => (k : ℚ)) ?_)
        omega

theorem argmaxAux_spec :
    ∀ (xs L : List ℚ) (i : ℕ) (best : ℕ × ℚ),
      L.drop i = xs → best.1 < L.length → L.getD best.1 0 = best.2 →
      ((argmaxAux xs i best).1 < L.length ∧
       L.getD (argmaxAux xs i best).1 0 = (argmaxAux xs i best).2 ∧
       best.2 ≤ (argmaxAux xs i best).2 ∧
       ∀ x ∈ xs, x ≤ (argmaxAux xs i best).2) := by
  intro xs
  induction xs with
  | nil =>
    intro L i best _ h1 h2
    exact ⟨h1, h2, le_refl _, by simp⟩
  | cons x xs ih =>
    intro L i best hdrop h1 h2
    have hi : i < L.length := by
      by_contra hge
      rw [List.drop_eq_nil_of_le (by omega)] at hdrop
      exact List.noConfusion hdrop
    have hx : L.getD i 0 = x := by
      have := List.head?_drop L i
      rw [hdrop] at this
      simp only [List.head?_cons] at this
      rw [List.getD_eq_getElem?_getD, ← this]
      rfl
    have hdrop1 : L.drop (i + 1) = xs := by
      have : L.drop (i + 1) = (L.drop i).drop 1 := by
        rw [List.drop_drop, Nat.add_comm]
      rw [this, hdrop, List.drop_one, List.tail_cons]
    rw [argmaxAux]
    by_cases hlt : best.2 < x
    · rw [if_pos hlt]
      obtain ⟨r1, r2, r3, r4⟩ := ih L (i + 1) (i, x) hdrop1 hi hx
      exact ⟨r1, r2, le_of_lt (lt_of_lt_of_le hlt r3), fun y hy => by
        rcases List.mem_cons.mp hy with rfl | hy
        · exact r3
        · exact r4 y hy⟩
    · rw [if_neg hlt]
      obtain ⟨r1, r2, r3, r4⟩ := ih L (i + 1) best hdrop1 h1 h2
      exact ⟨r1, r2, r3, fun y hy => by
        rcases List.mem_cons.mp hy with rfl | hy
        · exact le_trans (le_of_not_lt hlt) r3
        · exact r4 y hy⟩

theorem argmaxFirst_spec (l : List ℚ) (hl : l ≠ []) :
    argmaxFirst l < l.length ∧ ∀ x ∈ l, x ≤ l.getD (argmaxFirst l) 0 := by
  cases l with
  | nil => exact absurd rfl hl
  | cons a as =>
    obtain ⟨r1, r2, r3, r4⟩ := argmaxAux_spec as (a :: as) 1 (0, a)
      (by simp) (by simp) (by simp)
    refine ⟨r1, fun x hx => ?_⟩
    rw [show argmaxFirst (a :: as) = (argmaxAux as 1 (0, a)).1 from rfl, r2]
    rcases List.mem_cons.mp hx with rfl | hx
    · exact r3
    · exact r4 x hx

theorem dot_replicate_zero : ∀ (k : ℕ) (w : List ℚ), dotQ (List.replicate k 0) w = 0 := by
  intro k
  induction k with
  | zero => intro w; simp [dotQ]
  | succ k ih =>
    intro w
    cases w with
    | nil => simp [dotQ]
    | cons y ys =>
      rw [List.replicate_succ]
      simp only [dotQ, List.zipWith_cons_cons, List.sum_cons, zero_mul, zero_add]
      exact ih ys

theorem dot_oneHot0 (n : ℕ) (hn : 1 ≤ n) :
    dotQ (oneHot0 n) (revWeights n) = ((n - 1 : ℕ) : ℚ) := by
  obtain ⟨m, rfl⟩ := Nat.exists_eq_add_of_le hn
  rw [Nat.add_comm 1 m, revWeights_succ, oneHot0]
  simp only [Nat.add_sub_cancel, dotQ, List.zipWith_cons_cons, List.sum_cons, one_mul]
  rw [show (List.zipWith (· * ·) (List.replicate m 0) (revWeights m)).sum
      = dotQ (List.replicate m 0) (revWeights m) from rfl]
  rw [dot_replicate_zero]
  ring

theorem dot_replicate_zero_append : ∀ (k : ℕ) (w : List ℚ),
    dotQ (List.replicate k 0 ++ [1]) w = w.getD k 0 := by
  intro k
  induction k with
  | zero =>
    intro w
    cases w with
    | nil => simp [dotQ]
    | cons y ys => simp [dotQ]
  | succ k ih =>
    intro w
    cases w with
    | nil => simp [dotQ]
    | cons y ys =>
      rw [List.replicate_succ, List.cons_append]
      simp only [dotQ, List.zipWith_cons_cons, List.sum_cons, zero_mul, zero_add,
        List.getD_cons_succ]
      exact ih ys

theorem revWeights_getD_last (n : ℕ) (hn : 1 ≤ n) :
    (revWeights n).getD (n - 1) 0 = 0 := by
  obtain ⟨m, rfl⟩ := Nat.exists_eq_add_of_le hn
  rw [Nat.add_comm 1 m]
  induction m with
  | zero => rfl
  | succ m ihm =>
    rw [revWeights_succ]
    simpa using ihm

theorem dot_oneHotLast (n : ℕ) (hn : 1 ≤ n) :
    dotQ (oneHotLast n) (revWeights n) = 0 := by
  rw [oneHotLast, dot_replicate_zero_append, revWeights_getD_last n hn]

theorem argmaxFirst_pair (a b : ℚ) :
    argmaxFirst [a, b] = if a < b then 1 else 0 := by
  by_cases h : a < b <;> simp [argmaxFirst, argmaxAux, h]

/-- C6: the best-focus execution computes one score per plane as
`sum over c of p_c * (n_classes - 1 - c)`, selects a plane attaining the
maximum score, and returns the tile subset to that plane (z-length 1,
other dimensions untouched); in particular, with two planes whose masses
sit entirely on class 0 and class `n-1` respectively, the first strictly
outscores the second and is selected. -/
theorem c6_best_focus_scoring (fc fch n : ℕ) (pp : Plane → List ℚ) (tile : Tile) :
    ((∀ pl ∈ extractStack tile fc fch, (pp pl).length = n) →
      (bestFocusRun fc fch n pp tile).2.2 =
        (extractStack tile fc fch).map (fun pl =>
          ((List.range n).map (fun c => (pp pl).getD c 0 * ((n - 1 - c : ℕ) : ℚ))).sum)) ∧
    (extractStack tile fc fch ≠ [] →
      (bestFocusRun fc fch n pp tile).2.1 < (bestFocusRun fc fch n pp tile).2.2.length ∧
      ∀ s ∈ (bestFocusRun fc fch n pp tile).2.2,
        s ≤ (bestFocusRun fc fch n pp tile).2.2.getD (bestFocusRun fc fch n pp tile).2.1 0) ∧
    ((bestFocusRun fc fch n pp tile).1.length = tile.length ∧
      ∀ c < tile.length, (bestFocusRun fc fch n pp tile).1.getD c [] =
        [(tile.getD c []).getD (bestFocusRun fc fch n pp tile).2.1 []]) ∧
    (∀ pA pB : Plane, 2 ≤ n → extractStack tile fc fch = [pA, pB] →
      pp pA = oneHot0 n → pp pB = oneHotLast n →
      dotQ (pp pB) (revWeights n) < dotQ (pp pA) (revWeights n) ∧
      (bestFocusRun fc fch n pp tile).2.1 = 0) := by
  refine ⟨?_, ?_, ⟨?_, ?_⟩, ?_⟩
  · intro hlen
    simp only [bestFocusRun, List.map_map]
    apply List.map_congr_left
    intro pl hpl
    exact dot_revWeights (pp pl) n (hlen pl hpl)
  · intro hne
    simp only [bestFocusRun]
    apply argmaxFirst_spec
    simp only [ne_eq, List.map_eq_nil_iff]
    exact fun h => hne (by simpa using h)
  · simp [bestFocusRun]
  · intro c hc
    simp only [bestFocusRun]
    rw [List.getD_eq_getElem?_getD, List.getElem?_map,
      List.getElem?_eq_getElem hc]
    simp only [Option.map_some', Option.getD_some]
    have ht : List.getD tile c [] = tile[c] := by
      rw [List.getD_eq_getElem?_getD, List.getElem?_eq_getElem hc, Option.getD_some]
    rw [ht]
  · intro pA pB hn himg hA hB
    have hsA : dotQ (pp pA) (revWeights n) = ((n - 1 : ℕ) : ℚ) := by
      rw [hA]; exact dot_oneHot0 n (by omega)
    have hsB : dotQ (pp pB) (revWeights n) = 0 := by
      rw [hB]; exact dot_oneHotLast n (by omega)
    have hpos : (0 : ℚ) < ((n - 1 : ℕ) : ℚ) := by
      have : 1 ≤ n - 1 := by omega
      exact_mod_cast Nat.lt_of_lt_of_le Nat.zero_lt_one this
    constructor
    · rw [hsA, hsB]; exact hpos
    · simp only [bestFocusRun, himg, List.map_cons, List.map_nil]
      rw [hsA, hsB, argmaxFirst_pair]
      rw [if_neg (not_lt.mpr (le_of_lt hpos))]

/-- Two-plane, one-cycle, one-channel tile for the C6 witness. -/
def c6Tile : Tile := [[[[[0]]], [[[7]]]]]

/-- Classifier hook: full mass on class 0 for the first plane, full mass
on the last class for anything else. -/
def c6Probs : Plane → List ℚ := fun pl => if pl = [[0]] then oneHot0 2 else oneHotLast 2

/-- Witness for C6: with 2 quality classes, the plane concentrated on
class 0 strictly outscores the plane concentrated on class 1 and is
selected (index 0). -/
theorem c6_best_focus_scoring_witness :
    extractStack c6Tile 0 0 = [[[0]], [[7]]] ∧
    c6Probs [[0]] = oneHot0 2 ∧
    c6Probs [[7]] = oneHotLast 2 ∧
    (dotQ (c6Probs [[7]]) (revWeights 2) < dotQ (c6Probs [[0]]) (revWeights 2) ∧
     (bestFocusRun 0 0 2 c6Probs c6Tile).2.1 = 0) := by
  refine ⟨rfl, rfl, rfl, ?_⟩
  exact (c6_best_focus_scoring 0 0 2 c6Probs c6Tile).2.2.2 [[0]] [[7]]
    (by omega) rfl rfl rfl
